import Mathlib

/-!
# Verification of `gracefully` (grace.go)

The package waits for a trigger on a channel, then shuts a list of
components down concurrently under one deadline.

* The configuration code (`WithTimeout`, `WithShutdown`, `WithSignaler`, `New`)
  is embedded as pure functions on the `grace` record.
* `Grace`, `shutdownAll`, its anonymous goroutine and `shutdownOne` are embedded
  as a labelled transition system: one program counter per goroutine, the
  `sync.WaitGroup` counter, the `done` channel and a clock. A schedule is a list
  of actions; it picks which goroutine runs next and when time passes.
* Time passes in two ways. `Action.tick`: every goroutine is blocked, and the
  clock moves to the first instant at which one of them can go on.
  `Action.delay`: the clock moves although a goroutine could run. Properties
  that do not depend on timing are proved for all schedules; properties that
  compare durations with the timeout are proved for the schedules without
  `delay` (`Prompt`).
-/

namespace Gracefully

/-! ## Configuration -/

/-- Durations are `time.Duration`: a signed count of nanoseconds. -/
abbrev Duration := Int

/-- The constant `time.Millisecond`. -/
def Millisecond : Duration := 1000000

/-- The constant `time.Second`. -/
def Second : Duration := 1000000000

/-- A value behind the `Shutdown` interface. The package only ever calls
`Shutdown(ctx)` on it, so a component is described by what that call does:
`dur` is how long the call runs before it returns (`none`: it never returns)
and `err` is the error it returns (`none`: nil). -/
structure Shutdown where
  dur : Option Nat
  err : Option String
deriving DecidableEq, Repr

/-- A channel value `chan os.Signal`: its identity and its capacity. The nil
channel is `none : Option Chan`. -/
structure Chan where
  id : Nat
  cap : Nat
deriving DecidableEq, Repr

/-- The struct `grace`; `td` is a `time.Duration`. -/
structure grace where
  ss : List Shutdown
  td : Int
  sig : Option Chan
deriving DecidableEq, Repr

/-- The type `GraceFn`, `func(*grace)`: the mutation through the pointer is a
function from the record before to the record after. -/
abbrev GraceFn := grace → grace

/-- The option `WithTimeout(t)`: `g.td = t`. -/
def WithTimeout (t : Duration) : GraceFn :=
  fun g => { g with td := t }

/-- The option `WithShutdown(s)`: `g.ss = append(g.ss, s)`. -/
def WithShutdown (s : Shutdown) : GraceFn :=
  fun g => { g with ss := g.ss ++ [s] }

/-- The option `WithSignaler(sig)`: `g.sig = sig`. -/
def WithSignaler (sig : Option Chan) : GraceFn :=
  fun g => { g with sig := sig }

/-- The Go expression `make(chan os.Signal, n)`: `next` is the first channel
identity not yet in use. -/
def makeChan (next : Nat) (n : Nat) : Chan :=
  { id := next, cap := n }

/-- The zero value `&grace{}`. -/
def grace.zero : grace :=
  { ss := [], td := 0, sig := none }

/-- The constructor `New(fns...)`. `next` is the first unused channel identity
at the time of the call (used by the `make` on line 51). -/
def New (next : Nat) (fns : List GraceFn) : grace :=
  let g := grace.zero
  let g := WithTimeout (Second * 5) g
  let g := WithSignaler (some (makeChan next 1)) g
  fns.foldl (fun g fn => fn g) g

/-- An option as the caller writes it. The struct `grace` is unexported, so the
only `GraceFn` values a caller can build are the results of the three
`With...` functions. -/
inductive Opt where
  | timeout (t : Duration)
  | shutdown (s : Shutdown)
  | signaler (sig : Option Chan)
deriving DecidableEq, Repr

/-- The `GraceFn` an option stands for. -/
def Opt.fn : Opt → GraceFn
  | .timeout t => WithTimeout t
  | .shutdown s => WithShutdown s
  | .signaler c => WithSignaler c

/-- The argument of a `WithShutdown` option. -/
def Opt.shutdownArg : Opt → Option Shutdown
  | .shutdown s => some s
  | _ => none

/-- The argument of a `WithTimeout` option. -/
def Opt.timeoutArg : Opt → Option Duration
  | .timeout t => some t
  | _ => none

/-- The argument of a `WithSignaler` option. -/
def Opt.signalerArg : Opt → Option (Option Chan)
  | .signaler c => some c
  | _ => none

/-- The arguments of the `WithShutdown` options of a sequence, in order. -/
def shutdownArgs (opts : List Opt) : List Shutdown :=
  opts.filterMap Opt.shutdownArg

/-- The argument of the last `WithTimeout` of a sequence, if there is one. -/
def lastTimeout (opts : List Opt) : Option Duration :=
  (opts.filterMap Opt.timeoutArg).getLast?

/-- The argument of the last `WithSignaler` of a sequence, if there is one. -/
def lastSignaler (opts : List Opt) : Option (Option Chan) :=
  (opts.filterMap Opt.signalerArg).getLast?

/-! ## The goroutines of `Grace`

Time is a natural number of nanoseconds since `New` returned. -/

/-- What the caller and the outside world do. Only the first thing that
happens to the channel matters, since `Grace` receives from it once. -/
structure Env where
  /-- The instant at which `Grace` is called. -/
  enter : Nat
  /-- The instant from which the receive `<-g.sig` can proceed (`none`: never). -/
  trig : Option Nat
  /-- What lets the receive proceed at `trig`: a value, sent by `signal.Notify`
  or written by the caller (`false`), or the closing of the channel by the
  caller (`true`); a receive from a closed channel proceeds at once, yielding
  the zero value and consuming nothing. -/
  closed : Bool := false
deriving DecidableEq, Repr

/-- Where the goroutine running `Grace` stands. -/
inductive MainPc where
  /-- Stands before the call of `Grace`. -/
  | idle
  /-- Stands at line 63, `signal.Notify(g.sig, ...)`; the context is armed. -/
  | notify
  /-- Stands at line 64, `<-g.sig`. -/
  | recv
  /-- Stands at lines 66-68, `done := make(...)` and `go g.shutdownAll(ctx, done)`. -/
  | spawn
  /-- Stands at line 70, the `select`. -/
  | sel
  /-- Has returned `err` (`none` is nil). -/
  | returned (err : Option String)
deriving DecidableEq, Repr

/-- Where the goroutine running `shutdownAll` stands. -/
inductive AllPc where
  | notStarted
  /-- Stands at lines 80-81, `wg := &sync.WaitGroup{}` and `wg.Add(1)`. -/
  | add
  /-- Stands at line 82, `go func() {...}()`. -/
  | goFunc
  /-- Stands at line 89, `wg.Wait()`. -/
  | wait
  /-- Stands at the deferred `close(done)` of line 79. -/
  | close
  | finished
deriving DecidableEq, Repr

/-- Where the anonymous goroutine of `shutdownAll` (lines 82-88) stands. -/
inductive FuncPc where
  | notStarted
  /-- Stands at the head of the `range` loop, before entry `i`: line 85
  `wg.Add(1)` when there is such an entry, else the deferred `wg.Done()`. -/
  | loop (i : Nat)
  /-- Stands at line 86, `go g.shutdownOne(ctx, wg, s)` for entry `i`. -/
  | go (i : Nat)
  | finished
deriving DecidableEq, Repr

/-- Where the goroutine running `shutdownOne` for one entry stands. -/
inductive OnePc where
  | notStarted
  /-- Stands at line 94, about to call `s.Shutdown(ctx)`. -/
  | call
  /-- Is inside `s.Shutdown(ctx)`, which returns at `till` (`none`: never). -/
  | running (till : Option Nat)
  /-- Stands at the deferred `wg.Done()` of line 93. -/
  | deferred
  | finished
deriving DecidableEq, Repr

/-- The state of one call of `Grace`. -/
structure State where
  /-- The clock. -/
  now : Nat
  /-- A goroutine has panicked. -/
  crashed : Bool
  /-- The deadline of `ctx`, once `context.WithTimeout` has run. -/
  deadline : Option Int
  /-- How many values `Grace` has consumed from `g.sig`. -/
  received : Nat
  main : MainPc
  all : AllPc
  func : FuncPc
  /-- One program counter per entry of `g.ss`. -/
  ones : List OnePc
  /-- The counter of the `sync.WaitGroup`. -/
  wg : Nat
  /-- The channel `done` has been closed. -/
  doneClosed : Bool
  /-- The calls of `Shutdown` made so far: the entry and the deadline of the
  context it was given. -/
  calls : List (Nat × Option Int)
  /-- What `log.Println` has written. -/
  log : List String
deriving DecidableEq, Repr

/-- The state when `New` has returned and `Grace` is not yet called. -/
def init (g : grace) : State :=
  { now := 0, crashed := false, deadline := none, received := 0,
    main := .idle, all := .notStarted, func := .notStarted,
    ones := List.replicate g.ss.length .notStarted,
    wg := 0, doneClosed := false, calls := [], log := [] }

/-- What a scheduler can choose. -/
inductive Action where
  /-- The next statement of `Grace`; at the `select`, the case `<-done`. -/
  | grace
  /-- At the `select` of `Grace`, the case `<-timeout`. -/
  | graceTimeout
  /-- The next statement of `shutdownAll`. -/
  | all
  /-- The next statement of the anonymous goroutine. -/
  | func
  /-- The next statement of `shutdownOne` for entry `i`. -/
  | one (i : Nat)
  /-- Every goroutine is blocked: time passes until the first instant at which
  one of them can go on. -/
  | tick
  /-- Time passes by `d` although a goroutine could run (scheduling latency). -/
  | delay (d : Nat)
deriving DecidableEq, Repr

/-- The call `wg.Done()`: it panics on a counter that would go negative. -/
def wgDone (s : State) : State :=
  if s.wg = 0 then { s with crashed := true } else { s with wg := s.wg - 1 }

/-- The method `Grace` (lines 58-76), one statement at a time, taking the case
`<-done` at the `select`. `context.WithTimeout` sets the deadline to the clock
plus `g.td`; `signal.Notify` panics when it is given a nil channel. -/
def Grace (g : grace) (e : Env) (s : State) : Option State :=
  match s.main with
  | .idle =>
    if e.enter ≤ s.now then
      some { s with deadline := some ((s.now : Int) + g.td), main := .notify }
    else none
  | .notify =>
    match g.sig with
    | none => some { s with crashed := true }
    | some _ => some { s with main := .recv }
  | .recv =>
    match e.trig with
    | some t =>
      if t ≤ s.now then
        some { s with received := s.received + (if e.closed then 0 else 1), main := .spawn }
      else none
    | none => none
  | .spawn => some { s with doneClosed := false, all := .add, main := .sel }
  | .sel => if s.doneClosed then some { s with main := .returned none } else none
  | .returned _ => none

/-- The case `<-timeout` of the `select` in `Grace` (lines 73-74): `ctx.Done()`
is closed from the deadline on. -/
def GraceTimeout (s : State) : Option State :=
  match s.main, s.deadline with
  | .sel, some d =>
    if d ≤ (s.now : Int) then
      some { s with main := .returned (some "closed by timeout") }
    else none
  | _, _ => none

/-- The method `shutdownAll` (lines 78-90) without the body of its anonymous
goroutine, one statement at a time. -/
def shutdownAll (s : State) : Option State :=
  match s.all with
  | .notStarted => none
  | .add => some { s with wg := 0 + 1, all := .goFunc }
  | .goFunc => some { s with func := .loop 0, all := .wait }
  | .wait => if s.wg = 0 then some { s with all := .close } else none
  | .close => some { s with doneClosed := true, all := .finished }
  | .finished => none

/-- The anonymous goroutine of `shutdownAll` (lines 82-88), one statement at a
time. -/
def shutdownAllFunc (g : grace) (s : State) : Option State :=
  match s.func with
  | .notStarted => none
  | .loop i =>
    if i < g.ss.length then some { s with wg := s.wg + 1, func := .go i }
    else some (wgDone { s with func := .finished })
  | .go i => some { s with ones := s.ones.set i .call, func := .loop (i + 1) }
  | .finished => none

/-- The method `shutdownOne` (lines 92-97) for entry `i` of `g.ss`, one
statement at a time. -/
def shutdownOne (g : grace) (s : State) (i : Nat) : Option State :=
  match s.ones[i]?, g.ss[i]? with
  | some .call, some c =>
    some { s with
      calls := s.calls ++ [(i, s.deadline)],
      ones := s.ones.set i (.running (c.dur.map (fun d => s.now + d))) }
  | some (.running (some t)), some c =>
    if t ≤ s.now then
      some { s with
        log := (match c.err with
          | some m => s.log ++ [m]
          | none => s.log),
        ones := s.ones.set i .deferred }
    else none
  | some .deferred, some _ => some (wgDone { s with ones := s.ones.set i .finished })
  | _, _ => none

/-- A step that takes no time. -/
def instant (g : grace) (e : Env) (s : State) : Action → Option State
  | .grace => Grace g e s
  | .graceTimeout => GraceTimeout s
  | .all => shutdownAll s
  | .func => shutdownAllFunc g s
  | .one i => shutdownOne g s i
  | .tick => none
  | .delay _ => none

/-- The actions that take no time. -/
def instants (g : grace) : List Action :=
  [.grace, .graceTimeout, .all, .func] ++ (List.range g.ss.length).map .one

/-- Some goroutine can run now. -/
def canRun (g : grace) (e : Env) (s : State) : Bool :=
  (instants g).any (fun a => (instant g e s a).isSome)

/-- The instant a blocked `Grace` waits for, if it waits for one. -/
def mainAlarm (e : Env) (s : State) : List Nat :=
  match s.main with
  | .idle => [e.enter]
  | .recv => e.trig.toList
  | .sel => (s.deadline.map Int.toNat).toList
  | _ => []

/-- The instant a `shutdownOne` goroutine waits for, if it is inside
`Shutdown`. -/
def OnePc.alarm : OnePc → Option Nat
  | .running t => t
  | _ => none

/-- The instants at which a blocked goroutine can go on. -/
def alarms (e : Env) (s : State) : List Nat :=
  mainAlarm e s ++ s.ones.filterMap OnePc.alarm

/-- The first alarm after now. -/
def nextAlarm (e : Env) (s : State) : Option Nat :=
  ((alarms e s).filter (fun t => s.now < t)).min?

/-- One step of the system. A crashed program takes no step. -/
def step (g : grace) (e : Env) (s : State) (a : Action) : Option State :=
  if s.crashed then none
  else match a with
    | .tick =>
      if canRun g e s then none
      else (nextAlarm e s).map (fun t => { s with now := t })
    | .delay d => some { s with now := s.now + d }
    | a => instant g e s a

/-- The state after a schedule, from `s`; `none` when the schedule picks a step
that cannot be taken. -/
def exec (g : grace) (e : Env) : State → List Action → Option State
  | s, [] => some s
  | s, a :: as => (step g e s a).bind (fun s1 => exec g e s1 as)

/-- The state after a schedule, from the initial state. -/
def run (g : grace) (e : Env) (acts : List Action) : Option State :=
  exec g e (init g) acts

/-- A schedule without scheduling latency: time passes only when every
goroutine is blocked. -/
def Prompt (acts : List Action) : Prop :=
  ∀ a ∈ acts, ∀ d, a ≠ .delay d

/-- The error `Grace` returns on timeout, `errors.New("closed by timeout")`. -/
def timeoutErr : Option String := some "closed by timeout"

/-! ## The step relation -/

/-- The steps of the system as a relation: one constructor per statement that
a goroutine can execute, and one each for the two ways time passes, each with
the action that takes it. -/
inductive Trans (g : grace) (e : Env) : State → Action → State → Prop where
  | enter (s : State) (hc : s.crashed = false) (hm : s.main = .idle) (ht : e.enter ≤ s.now) :
      Trans g e s .grace { s with deadline := some ((s.now : Int) + g.td), main := .notify }
  | notifyNil (s : State) (hc : s.crashed = false) (hm : s.main = .notify)
      (hs : g.sig = none) :
      Trans g e s .grace { s with crashed := true }
  | notify (s : State) (hc : s.crashed = false) (hm : s.main = .notify) (c : Chan)
      (hs : g.sig = some c) :
      Trans g e s .grace { s with main := .recv }
  | recv (s : State) (hc : s.crashed = false) (hm : s.main = .recv) (t : Nat)
      (htr : e.trig = some t) (ht : t ≤ s.now) :
      Trans g e s .grace
        { s with received := s.received + (if e.closed then 0 else 1), main := .spawn }
  | spawn (s : State) (hc : s.crashed = false) (hm : s.main = .spawn) :
      Trans g e s .grace { s with doneClosed := false, all := .add, main := .sel }
  | selDone (s : State) (hc : s.crashed = false) (hm : s.main = .sel)
      (hd : s.doneClosed = true) :
      Trans g e s .grace { s with main := .returned none }
  | selTimeout (s : State) (hc : s.crashed = false) (hm : s.main = .sel) (d : Int)
      (hd : s.deadline = some d) (ht : d ≤ (s.now : Int)) :
      Trans g e s .graceTimeout { s with main := .returned (some "closed by timeout") }
  | allAdd (s : State) (hc : s.crashed = false) (ha : s.all = .add) :
      Trans g e s .all { s with wg := 0 + 1, all := .goFunc }
  | allGo (s : State) (hc : s.crashed = false) (ha : s.all = .goFunc) :
      Trans g e s .all { s with func := .loop 0, all := .wait }
  | allWait (s : State) (hc : s.crashed = false) (ha : s.all = .wait) (hw : s.wg = 0) :
      Trans g e s .all { s with all := .close }
  | allClose (s : State) (hc : s.crashed = false) (ha : s.all = .close) :
      Trans g e s .all { s with doneClosed := true, all := .finished }
  | funcAdd (s : State) (hc : s.crashed = false) (i : Nat) (hf : s.func = .loop i)
      (hi : i < g.ss.length) :
      Trans g e s .func { s with wg := s.wg + 1, func := .go i }
  | funcDone (s : State) (hc : s.crashed = false) (i : Nat) (hf : s.func = .loop i)
      (hi : ¬ i < g.ss.length) :
      Trans g e s .func (wgDone { s with func := .finished })
  | funcGo (s : State) (hc : s.crashed = false) (i : Nat) (hf : s.func = .go i) :
      Trans g e s .func { s with ones := s.ones.set i .call, func := .loop (i + 1) }
  | oneCall (s : State) (hc : s.crashed = false) (i : Nat) (c : Shutdown)
      (ho : s.ones[i]? = some .call) (hg : g.ss[i]? = some c) :
      Trans g e s (.one i) { s with
        calls := s.calls ++ [(i, s.deadline)],
        ones := s.ones.set i (.running (c.dur.map (fun d => s.now + d))) }
  | oneReturn (s : State) (hc : s.crashed = false) (i : Nat) (c : Shutdown) (t : Nat)
      (ho : s.ones[i]? = some (.running (some t))) (hg : g.ss[i]? = some c)
      (ht : t ≤ s.now) :
      Trans g e s (.one i) { s with
        log := (match c.err with
          | some m => s.log ++ [m]
          | none => s.log),
        ones := s.ones.set i .deferred }
  | oneDone (s : State) (hc : s.crashed = false) (i : Nat) (c : Shutdown)
      (ho : s.ones[i]? = some .deferred) (hg : g.ss[i]? = some c) :
      Trans g e s (.one i) (wgDone { s with ones := s.ones.set i .finished })
  | tick (s : State) (hc : s.crashed = false) (hr : canRun g e s = false) (t : Nat)
      (hn : nextAlarm e s = some t) :
      Trans g e s .tick { s with now := t }
  | delay (s : State) (hc : s.crashed = false) (d : Nat) :
      Trans g e s (.delay d) { s with now := s.now + d }

/-! ## Invariants -/

/-- What the goroutine of one entry contributes to the `WaitGroup` counter: 1
from its start to its `wg.Done()`. -/
def OnePc.active : OnePc → Nat
  | .call => 1
  | .running _ => 1
  | .deferred => 1
  | _ => 0

/-- The number of `shutdownOne` goroutines that are started and have not yet
called `wg.Done()`. -/
def actives (l : List OnePc) : Nat :=
  (l.map OnePc.active).sum

/-- What the anonymous goroutine contributes to the `WaitGroup` counter: the 1
added for it on line 81, and between lines 85 and 86 the 1 added for the entry
whose goroutine is not yet started. -/
def FuncPc.hold : FuncPc → Nat
  | .notStarted => 0
  | .loop _ => 1
  | .go _ => 2
  | .finished => 0

/-- The number of entries whose goroutine the anonymous goroutine has started,
out of `n`. -/
def FuncPc.spawned (n : Nat) : FuncPc → Nat
  | .notStarted => 0
  | .loop i => i
  | .go i => i
  | .finished => n

/-- The call `Shutdown(ctx)` of this entry has been made. -/
def OnePc.invoked : OnePc → Bool
  | .running _ => true
  | .deferred => true
  | .finished => true
  | _ => false

/-- The call `Shutdown(ctx)` of this entry has returned. -/
def OnePc.returned : OnePc → Bool
  | .deferred => true
  | .finished => true
  | _ => false

/-- The goroutine of `Grace` has not yet received from `g.sig`. -/
def MainPc.early : MainPc → Bool
  | .idle => true
  | .notify => true
  | .recv => true
  | _ => false

/-- The goroutine of `Grace` has returned. -/
def MainPc.isReturned : MainPc → Bool
  | .returned _ => true
  | _ => false

/-- Invariant, program counters: how far each goroutine can be, given how far
the goroutine that starts it is. -/
structure InvPc (g : grace) (s : State) : Prop where
  len : s.ones.length = g.ss.length
  all_ns : s.all = .notStarted ↔ (s.main.early = true ∨ s.main = .spawn)
  func_ns : s.func = .notStarted ↔ (s.all = .notStarted ∨ s.all = .add ∨ s.all = .goFunc)
  func_le : s.func.spawned g.ss.length ≤ g.ss.length
  func_lt : ∀ i, s.func = .go i → i < g.ss.length
  ones_ns : ∀ j, j < g.ss.length →
    (s.ones[j]? = some .notStarted ↔ s.func.spawned g.ss.length ≤ j)

/-- Invariant, the `WaitGroup`: the counter is the number of goroutines that
still owe a `wg.Done()`, and `done` is closed only when none is left. -/
structure InvWg (g : grace) (s : State) : Prop where
  wg_go : s.all = .goFunc → s.wg = 1
  wg_eq : s.func ≠ .notStarted → s.wg = s.func.hold + actives s.ones
  closed : s.all = .close ∨ s.all = .finished →
    s.wg = 0 ∧ s.func = .finished ∧ ∀ j, j < g.ss.length → s.ones[j]? = some .finished
  done_iff : s.doneClosed = true ↔ s.all = .finished
  crash : s.crashed = true → g.sig = none ∧ s.main = .notify

/-- Invariant, `Grace` itself: what it has received, the deadline it armed and
what it returned. -/
structure InvMain (g : grace) (e : Env) (s : State) : Prop where
  recv_eq : s.received = if s.main.early = true then 0 else if e.closed then 0 else 1
  trig : s.main.early = false → ∃ t, e.trig = some t ∧ t ≤ s.now
  dl_idle : s.main = .idle → s.deadline = none
  dl_some : s.main ≠ .idle →
    ∃ t0 : Nat, e.enter ≤ t0 ∧ t0 ≤ s.now ∧ s.deadline = some ((t0 : Int) + g.td)
  ret : ∀ r, s.main = .returned r →
    (r = none ∧ s.doneClosed = true) ∨
    (r = timeoutErr ∧ ∃ d, s.deadline = some d ∧ d ≤ (s.now : Int))

/-- Invariant, the calls of `Shutdown`: one per entry whose goroutine is past
line 94, each with the context of `Grace`. -/
structure InvCalls (s : State) : Prop where
  calls_cnt : ∀ j, (s.calls.map Prod.fst).count j =
    if (s.ones[j]?).map OnePc.invoked = some true then 1 else 0
  calls_ctx : ∀ c ∈ s.calls, c.2 = s.deadline
  calls_nil : s.func = .notStarted → s.calls = []

/-- The invariant of the system under every schedule, scheduling latency
included. -/
structure Inv (g : grace) (e : Env) (s : State) : Prop where
  pc : InvPc g s
  wg : InvWg g s
  main : InvMain g e s
  calls : InvCalls s

/-- The instant at which `Grace` receives from `g.sig` when nothing is late:
the later one of the call of `Grace` and the delivery of the trigger. -/
def Env.start (e : Env) : Nat :=
  max e.enter (e.trig.getD 0)

/-- The goroutine of `shutdownAll` has not yet started the anonymous
goroutine. -/
def AllPc.starting : AllPc → Bool
  | .notStarted => true
  | .add => true
  | .goFunc => true
  | _ => false

/-- The anonymous goroutine is in its loop. -/
def FuncPc.looping : FuncPc → Bool
  | .loop _ => true
  | .go _ => true
  | _ => false

/-- Some goroutine still stands before a call of `Shutdown` that is going to be
made: the calls are not all under way. -/
def State.starting (s : State) : Prop :=
  s.all.starting = true ∨ s.func.looping = true ∨ ∃ j : Nat, s.ones[j]? = some .call

/-- Invariant of the schedules without scheduling latency: the instants at
which things happen. -/
structure InvTime (g : grace) (e : Env) (s : State) : Prop where
  idle_le : s.main = .idle → s.now ≤ e.enter
  dl : s.main ≠ .idle → s.deadline = some ((e.enter : Int) + g.td)
  start_le : s.main.early = false → e.start ≤ s.now
  starting : s.starting → s.now ≤ e.start
  running : ∀ (j : Nat) (u : Option Nat), s.ones[j]? = some (.running u) →
    ∃ c, g.ss[j]? = some c ∧ u = c.dur.map (fun d => e.start + d)
  fin : ∀ (j : Nat) (x : OnePc), s.ones[j]? = some x → x.returned = true →
    ∃ c D, g.ss[j]? = some c ∧ c.dur = some D ∧ e.start + D ≤ s.now
  sel : s.main = .sel → s.now ≤ e.start ∨ (s.now : Int) ≤ (e.enter : Int) + g.td

/-! ## Termination measure and the meaning of "returns" -/

/-- The number of statements `Grace` still has to execute. -/
def MainPc.rem : MainPc → Nat
  | .idle => 5
  | .notify => 4
  | .recv => 3
  | .spawn => 2
  | .sel => 1
  | .returned _ => 0

/-- The number of statements `shutdownAll` still has to execute. -/
def AllPc.rem : AllPc → Nat
  | .notStarted => 5
  | .add => 4
  | .goFunc => 3
  | .wait => 2
  | .close => 1
  | .finished => 0

/-- The number of statements the anonymous goroutine still has to execute,
for `n` entries. -/
def FuncPc.rem (n : Nat) : FuncPc → Nat
  | .notStarted => 2 * n + 2
  | .loop i => 2 * (n - i) + 1
  | .go i => 2 * (n - i)
  | .finished => 0

/-- The number of statements a `shutdownOne` goroutine still has to execute. -/
def OnePc.rem : OnePc → Nat
  | .notStarted => 4
  | .call => 3
  | .running _ => 2
  | .deferred => 1
  | .finished => 0

/-- The number of statements all goroutines together still have to execute
(plus one while the program has not crashed). -/
def State.pending (g : grace) (s : State) : Nat :=
  (if s.crashed then 0 else 1) + s.main.rem + s.all.rem + s.func.rem g.ss.length
    + (s.ones.map OnePc.rem).sum

/-- A bound on the number of steps a schedule without scheduling latency can
still take: two per pending statement, so that every passing of time is paid
for by the statement it enables. -/
def State.fuel (g : grace) (e : Env) (s : State) : Nat :=
  2 * s.pending g + (if canRun g e s then 0 else 1)

/-- The meaning of "`Grace` returns `r`": on the schedules without scheduling
latency, every schedule is of bounded length, as long as `Grace` has not
returned some step can be taken, whatever `Grace` returns is `r`, and some
schedule does make it return. -/
structure GraceReturns (g : grace) (e : Env) (r : Option String) : Prop where
  bounded : ∀ acts s, Prompt acts → run g e acts = some s →
    acts.length ≤ 12 * g.ss.length + 27
  progress : ∀ acts s, Prompt acts → run g e acts = some s → s.main.isReturned = false →
    ∃ a, (∀ d, a ≠ .delay d) ∧ (step g e s a).isSome = true
  result : ∀ acts s r1, Prompt acts → run g e acts = some s → s.main = .returned r1 → r1 = r
  reached : ∃ acts s, Prompt acts ∧ run g e acts = some s ∧ s.main = .returned r

/-! ## Comparing configurations -/

/-- The state without what `log.Println` has written. -/
def State.eraseLog (s : State) : State :=
  { s with log := [] }

/-- Two configurations that differ at most in the errors their components
return. -/
def SameButErrors (g1 g2 : grace) : Prop :=
  g1.td = g2.td ∧ g1.sig = g2.sig ∧ g1.ss.map (fun c => c.dur) = g2.ss.map (fun c => c.dur)

/-! ## Sample configurations and schedules -/

/-- The action is a scheduling latency. -/
def Action.isDelay : Action → Bool
  | .delay _ => true
  | _ => false

/-- The longest of a list of durations. -/
def maxDur (ds : List Nat) : Nat :=
  ds.foldr max 0

/-- Milliseconds in nanoseconds. -/
def ms (n : Nat) : Nat := n * 1000000

/-- The configuration of `TestShutdownGracefully`: timeout 1 s, one component
that takes 100 ms. -/
def gracefulG : grace :=
  New 1 [WithSignaler (some (makeChan 0 1)), WithTimeout (Second * 1),
    WithShutdown { dur := some (ms 100), err := none }]

/-- A configuration with a negative timeout and one component whose `Shutdown`
returns at once. -/
def negativeG : grace :=
  New 1 [WithSignaler (some (makeChan 0 1)), WithTimeout (-1),
    WithShutdown { dur := some 0, err := none }]

/-- A schedule of `gracefulG` with the trigger at 950 ms: the component is
called at 950 ms, the deadline passes at 1 s, `Grace` takes `<-timeout`. -/
def lateSchedule : List Action :=
  [.grace, .grace, .tick, .grace, .grace, .all, .all, .func, .func, .one 0, .func, .tick,
    .graceTimeout]

/-- A schedule of `negativeG` in which `shutdownAll` has closed `done` before
`Grace` evaluates the `select`, and `Grace` takes `<-done`. -/
def raceSchedule : List Action :=
  [.grace, .grace, .grace, .grace, .all, .all, .func, .func, .one 0, .one 0, .one 0, .func,
    .all, .all, .grace]

/-- The configuration of `TestMixedShutdownWithTimeout`, the first component
failing with an error: timeout 200 ms, components of 1 s and 200 ms. -/
def mixedG : grace :=
  New 1 [WithSignaler (some (makeChan 0 1)), WithTimeout (Millisecond * 200),
    WithShutdown { dur := some (ms 1000), err := some "boom" },
    WithShutdown { dur := some (ms 200), err := none }]

/-- The configuration `mixedG` with no component failing. -/
def mixedQuietG : grace :=
  New 1 [WithSignaler (some (makeChan 0 1)), WithTimeout (Millisecond * 200),
    WithShutdown { dur := some (ms 1000), err := none },
    WithShutdown { dur := some (ms 200), err := none }]

/-- A configuration with a negative timeout and two components whose `Shutdown`
returns at once. -/
def negativeTwoG : grace :=
  New 1 [WithSignaler (some (makeChan 0 1)), WithTimeout (-5),
    WithShutdown { dur := some 0, err := none },
    WithShutdown { dur := some 0, err := none }]

/-- A configuration with a timeout of 1 s and two components of 600 ms each. -/
def parallelG : grace :=
  New 1 [WithSignaler (some (makeChan 0 1)), WithTimeout (Second * 1),
    WithShutdown { dur := some (ms 600), err := none },
    WithShutdown { dur := some (ms 600), err := none }]

/-- A schedule of `gracefulG` with the trigger at 100 ms, as in
`TestShutdownGracefully`: the component ends at 200 ms and `Grace` takes
`<-done`. -/
def gracefulSchedule : List Action :=
  [.grace, .grace, .tick, .grace, .grace, .all, .all, .func, .func, .one 0, .func, .tick,
    .one 0, .one 0, .all, .all, .grace]

/-- The state after `gracefulSchedule`. -/
def gracefulFinal : State :=
  { now := 200000000, crashed := false, deadline := some 1000000000, received := 1,
    main := .returned none, all := .finished, func := .finished, ones := [.finished],
    wg := 0, doneClosed := true, calls := [(0, some 1000000000)], log := [] }

/-- A schedule of `gracefulG` when the channel is closed at the call of
`Grace`: the receive proceeds at once, the component ends at 100 ms and `Grace`
takes `<-done`. -/
def closedSchedule : List Action :=
  [.grace, .grace, .grace, .grace, .all, .all, .func, .func, .one 0, .func, .tick,
    .one 0, .one 0, .all, .all, .grace]

/-- The state after `closedSchedule`. -/
def closedFinal : State :=
  { now := 100000000, crashed := false, deadline := some 1000000000, received := 0,
    main := .returned none, all := .finished, func := .finished, ones := [.finished],
    wg := 0, doneClosed := true, calls := [(0, some 1000000000)], log := [] }

/-- The state after `lateSchedule`. -/
def lateFinal : State :=
  { now := 1000000000, crashed := false, deadline := some 1000000000, received := 1,
    main := .returned (some "closed by timeout"), all := .wait, func := .finished,
    ones := [.running (some 1050000000)], wg := 1, doneClosed := false,
    calls := [(0, some 1000000000)], log := [] }

/-- A schedule of `mixedG` with the trigger at 100 ms, as in
`TestMixedShutdownWithTimeout`, run until every goroutine has finished. -/
def mixedSchedule : List Action :=
  [.grace, .grace, .tick, .grace, .grace, .all, .all, .func, .func, .one 0, .func, .func,
    .func, .one 1, .tick, .graceTimeout, .tick, .one 1, .one 1, .tick, .one 0, .one 0,
    .all, .all]

/-- The state after `mixedSchedule`. -/
def mixedFinal : State :=
  { now := 1100000000, crashed := false, deadline := some 200000000, received := 1,
    main := .returned (some "closed by timeout"), all := .finished, func := .finished,
    ones := [.finished, .finished], wg := 0, doneClosed := true,
    calls := [(0, some 200000000), (1, some 200000000)], log := ["boom"] }

/-- A schedule of `negativeTwoG` in which both components have ended and
`shutdownAll` has closed `done` before `Grace` evaluates the `select`. -/
def raceTwoSchedule : List Action :=
  [.grace, .grace, .grace, .grace, .all, .all, .func, .func, .func, .func, .func,
    .one 0, .one 0, .one 0, .one 1, .one 1, .one 1, .all, .all, .grace]

/-! ## Theorems on the configuration -/

/-- Applying a sequence of options to any record: the list grows by the
`WithShutdown` arguments, the two scalar fields take the last value given. -/
theorem foldl_opts (opts : List Opt) (g0 : grace) :
    ((opts.map Opt.fn).foldl (fun g fn => fn g) g0).ss = g0.ss ++ shutdownArgs opts ∧
    ((opts.map Opt.fn).foldl (fun g fn => fn g) g0).td = (lastTimeout opts).getD g0.td ∧
    ((opts.map Opt.fn).foldl (fun g fn => fn g) g0).sig = (lastSignaler opts).getD g0.sig := by
  induction opts using List.reverseRecOn with
  | nil => simp [shutdownArgs, lastTimeout, lastSignaler]
  | append_singleton l a ih =>
    obtain ⟨h1, h2, h3⟩ := ih
    cases a <;>
      simp [shutdownArgs, lastTimeout, lastSignaler, List.foldl_append, List.filterMap_append,
        Opt.fn, WithTimeout, WithShutdown, WithSignaler, Opt.shutdownArg, Opt.timeoutArg,
        Opt.signalerArg, h1, h2, h3]

/-- C9: the component list of `New(fns...)` is the list of the arguments of the
`WithShutdown` options of `fns`, in the order given and with repetitions kept;
it is empty when there is no `WithShutdown`; options of the other two kinds in
between do not change it, and one more `WithShutdown` appends to it. -/
theorem C9_components (next : Nat) (opts : List Opt) :
    (New next (opts.map Opt.fn)).ss = shutdownArgs opts ∧
    ((∀ o ∈ opts, o.shutdownArg = none) → (New next (opts.map Opt.fn)).ss = []) ∧
    (∀ x, (New next ((opts ++ [Opt.shutdown x]).map Opt.fn)).ss
        = (New next (opts.map Opt.fn)).ss ++ [x]) ∧
    (∀ t, (New next ((opts ++ [Opt.timeout t]).map Opt.fn)).ss
        = (New next (opts.map Opt.fn)).ss) ∧
    (∀ c, (New next ((opts ++ [Opt.signaler c]).map Opt.fn)).ss
        = (New next (opts.map Opt.fn)).ss) := by
  have key : ∀ os : List Opt, (New next (os.map Opt.fn)).ss = shutdownArgs os := by
    intro os
    have h := (foldl_opts os (WithSignaler (some (makeChan next 1))
      (WithTimeout (Second * 5) grace.zero))).1
    simpa [New, WithSignaler, WithTimeout, grace.zero] using h
  refine ⟨key opts, ?_, ?_, ?_, ?_⟩
  · intro h
    rw [key]
    simp only [shutdownArgs, List.filterMap_eq_nil_iff]
    exact h
  · intro x
    rw [key, key]
    simp [shutdownArgs, List.filterMap_append, Opt.shutdownArg]
  · intro t
    rw [key, key]
    simp [shutdownArgs, List.filterMap_append, Opt.shutdownArg]
  · intro c
    rw [key, key]
    simp [shutdownArgs, List.filterMap_append, Opt.shutdownArg]

/-- C10: the timeout of `New(fns...)` is the argument of the last `WithTimeout`
of `fns`, whatever its sign, or 5 seconds when there is none; the trigger
channel is the argument of the last `WithSignaler` (nil included), or the
channel made on line 51, of capacity 1 and of an identity not in use before,
when there is none; and each option changes its own field only. -/
theorem C10_timeout_and_signaler (next : Nat) (opts : List Opt) :
    (New next (opts.map Opt.fn)).td = (lastTimeout opts).getD (Second * 5) ∧
    (New next (opts.map Opt.fn)).sig = (lastSignaler opts).getD (some (makeChan next 1)) ∧
    (makeChan next 1).cap = 1 ∧ (makeChan next 1).id = next ∧
    (Second * 5 : Duration) = 5000000000 ∧
    (∀ (t : Duration) (g : grace),
      (WithTimeout t g).td = t ∧ (WithTimeout t g).ss = g.ss ∧ (WithTimeout t g).sig = g.sig) ∧
    (∀ (c : Option Chan) (g : grace),
      (WithSignaler c g).sig = c ∧ (WithSignaler c g).ss = g.ss ∧ (WithSignaler c g).td = g.td) ∧
    (∀ (x : Shutdown) (g : grace),
      (WithShutdown x g).ss = g.ss ++ [x] ∧ (WithShutdown x g).td = g.td ∧
      (WithShutdown x g).sig = g.sig) := by
  have h := foldl_opts opts (WithSignaler (some (makeChan next 1))
      (WithTimeout (Second * 5) grace.zero))
  refine ⟨?_, ?_, rfl, rfl, by decide, ?_, ?_, ?_⟩
  · simpa [New, WithSignaler, WithTimeout, grace.zero] using h.2.1
  · simpa [New, WithSignaler, WithTimeout, grace.zero] using h.2.2
  · intro t g; exact ⟨rfl, rfl, rfl⟩
  · intro c g; exact ⟨rfl, rfl, rfl⟩
  · intro x g; exact ⟨rfl, rfl, rfl⟩

/-! ## The invariant under every schedule -/

/-- Every step of the step function is a transition of the relation. -/
theorem step_trans {g : grace} {e : Env} {s s1 : State} {a : Action}
    (h : step g e s a = some s1) : Trans g e s a s1 := by
  unfold step at h
  split at h
  · simp at h
  · rename_i hc
    simp only [Bool.not_eq_true] at hc
    cases a with
    | grace =>
      simp only [instant, Grace] at h
      split at h
      · rename_i hm
        split at h
        · rename_i ht
          cases h
          exact Trans.enter s hc hm ht
        · simp at h
      · rename_i hm
        split at h
        · rename_i hs
          cases h
          exact Trans.notifyNil s hc hm hs
        · rename_i c hs
          cases h
          exact Trans.notify s hc hm c hs
      · rename_i hm
        split at h
        · rename_i t htr
          split at h
          · rename_i ht
            cases h
            exact Trans.recv s hc hm t htr ht
          · simp at h
        · simp at h
      · rename_i hm
        cases h
        exact Trans.spawn s hc hm
      · rename_i hm
        split at h
        · rename_i hd
          cases h
          exact Trans.selDone s hc hm hd
        · simp at h
      · simp at h
    | graceTimeout =>
      simp only [instant, GraceTimeout] at h
      split at h
      · rename_i d hm hd
        split at h
        · rename_i ht
          cases h
          exact Trans.selTimeout s hc hm d hd ht
        · simp at h
      · simp at h
    | all =>
      simp only [instant, shutdownAll] at h
      split at h
      · simp at h
      · rename_i ha
        cases h
        exact Trans.allAdd s hc ha
      · rename_i ha
        cases h
        exact Trans.allGo s hc ha
      · rename_i ha
        split at h
        · rename_i hw
          cases h
          exact Trans.allWait s hc ha hw
        · simp at h
      · rename_i ha
        cases h
        exact Trans.allClose s hc ha
      · simp at h
    | func =>
      simp only [instant, shutdownAllFunc] at h
      split at h
      · simp at h
      · rename_i i hf
        split at h
        · rename_i hi
          cases h
          exact Trans.funcAdd s hc i hf hi
        · rename_i hi
          cases h
          exact Trans.funcDone s hc i hf hi
      · rename_i i hf
        cases h
        exact Trans.funcGo s hc i hf
      · simp at h
    | one i =>
      simp only [instant, shutdownOne] at h
      split at h
      · rename_i c ho hg
        cases h
        exact Trans.oneCall s hc i c ho hg
      · rename_i t c ho hg
        split at h
        · rename_i ht
          cases h
          exact Trans.oneReturn s hc i c t ho hg ht
        · simp at h
      · rename_i c ho hg
        cases h
        exact Trans.oneDone s hc i c ho hg
      · simp at h
    | tick =>
      simp only at h
      split at h
      · simp at h
      · rename_i hr
        simp only [Bool.not_eq_true] at hr
        cases hn : nextAlarm e s with
        | none => simp [hn] at h
        | some t =>
          rw [hn] at h
          simp only [Option.map_some', Option.some.injEq] at h
          subst h
          exact Trans.tick s hc hr t hn
    | delay d =>
      simp only [Option.some.injEq] at h
      subst h
      exact Trans.delay s hc d

theorem actives_set {l : List OnePc} {i : Nat} {x : OnePc} (y : OnePc)
    (h : l[i]? = some x) : actives (l.set i y) + x.active = actives l + y.active := by
  induction l generalizing i with
  | nil => simp at h
  | cons a l ih =>
    cases i with
    | zero =>
      simp only [List.getElem?_cons_zero, Option.some.injEq] at h
      subst h
      simp only [actives, List.set_cons_zero, List.map_cons, List.sum_cons]
      omega
    | succ i =>
      simp only [List.getElem?_cons_succ] at h
      have := ih h
      simp only [actives, List.set_cons_succ, List.map_cons, List.sum_cons] at this ⊢
      omega

theorem actives_pos {l : List OnePc} (h : 0 < actives l) :
    ∃ (j : Nat) (x : OnePc), l[j]? = some x ∧ x.active = 1 := by
  induction l with
  | nil => simp [actives] at h
  | cons a l ih =>
    by_cases ha : a.active = 1
    · exact ⟨0, a, by simp, ha⟩
    · have h0 : a.active = 0 := by
        cases a <;> simp_all [OnePc.active]
      have : 0 < actives l := by
        simp only [actives, List.map_cons, List.sum_cons] at h ⊢
        omega
      obtain ⟨j, x, hj, hx⟩ := ih this
      exact ⟨j + 1, x, by simp [hj], hx⟩

@[simp] theorem wgDone_now (s : State) : (wgDone s).now = s.now := by
  unfold wgDone; split <;> rfl

@[simp] theorem wgDone_deadline (s : State) : (wgDone s).deadline = s.deadline := by
  unfold wgDone; split <;> rfl

@[simp] theorem wgDone_received (s : State) : (wgDone s).received = s.received := by
  unfold wgDone; split <;> rfl

@[simp] theorem wgDone_main (s : State) : (wgDone s).main = s.main := by
  unfold wgDone; split <;> rfl

@[simp] theorem wgDone_all (s : State) : (wgDone s).all = s.all := by
  unfold wgDone; split <;> rfl

@[simp] theorem wgDone_func (s : State) : (wgDone s).func = s.func := by
  unfold wgDone; split <;> rfl

@[simp] theorem wgDone_ones (s : State) : (wgDone s).ones = s.ones := by
  unfold wgDone; split <;> rfl

@[simp] theorem wgDone_doneClosed (s : State) : (wgDone s).doneClosed = s.doneClosed := by
  unfold wgDone; split <;> rfl

@[simp] theorem wgDone_calls (s : State) : (wgDone s).calls = s.calls := by
  unfold wgDone; split <;> rfl

@[simp] theorem wgDone_log (s : State) : (wgDone s).log = s.log := by
  unfold wgDone; split <;> rfl

theorem wgDone_pos {s : State} (h : 0 < s.wg) :
    (wgDone s).wg = s.wg - 1 ∧ (wgDone s).crashed = s.crashed := by
  unfold wgDone
  rw [if_neg (by omega)]
  exact ⟨rfl, rfl⟩

/-- Replacing the program counter of an entry already started by another
started one keeps the set of entries not yet started. -/
theorem ones_set_ns {l : List OnePc} {i : Nat} {x y : OnePc} (h : l[i]? = some x)
    (hx : x ≠ .notStarted) (hy : y ≠ .notStarted) (j : Nat) :
    (l.set i y)[j]? = some .notStarted ↔ l[j]? = some .notStarted := by
  have hi : i < l.length := by
    rcases Nat.lt_or_ge i l.length with hlt | hge
    · exact hlt
    · rw [List.getElem?_eq_none hge] at h
      cases h
  by_cases hij : i = j
  · subst hij
    rw [List.getElem?_set_self hi, h]
    simp only [Option.some.injEq]
    exact ⟨fun hh => absurd hh hy, fun hh => absurd hh hx⟩
  · rw [List.getElem?_set_ne hij]

theorem init_invPc (g : grace) : InvPc g (init g) := by
  constructor <;> simp [init, MainPc.early, FuncPc.spawned]
  intro j hj
  simp [List.getElem?_replicate, hj]

theorem InvPc.stepPc {g : grace} {e : Env} {s s1 : State} {a : Action}
    (hI : InvPc g s) (h : Trans g e s a s1) : InvPc g s1 := by
  obtain ⟨len, all_ns, func_ns, func_le, func_lt, ones_ns⟩ := hI
  cases h with
  | enter hc hm ht =>
    constructor <;> first | assumption | simp_all [MainPc.early, FuncPc.spawned]
  | notifyNil hc hm hs =>
    constructor <;> assumption
  | notify hc hm c hs =>
    constructor <;> first | assumption | simp_all [MainPc.early, FuncPc.spawned]
  | recv hc hm t htr ht =>
    constructor <;> first | assumption | simp_all [MainPc.early, FuncPc.spawned]
  | spawn hc hm =>
    constructor <;> first | assumption | simp_all [MainPc.early, FuncPc.spawned]
  | selDone hc hm hd =>
    constructor <;> first | assumption | simp_all [MainPc.early, FuncPc.spawned]
  | selTimeout hc hm d hd ht =>
    constructor <;> first | assumption | simp_all [MainPc.early, FuncPc.spawned]
  | allAdd hc ha =>
    constructor <;> first | assumption | simp_all [MainPc.early, FuncPc.spawned]
  | allGo hc ha =>
    constructor <;> first | assumption | simp_all [MainPc.early, FuncPc.spawned]
  | allWait hc ha hw =>
    constructor <;> first | assumption | simp_all [MainPc.early, FuncPc.spawned]
  | allClose hc ha =>
    constructor <;> first | assumption | simp_all [MainPc.early, FuncPc.spawned]
  | tick hc hr t hn =>
    constructor <;> assumption
  | delay hc d =>
    constructor <;> assumption
  | funcAdd hc i hf hi =>
    constructor <;> first | assumption | simp_all [MainPc.early, FuncPc.spawned]
  | funcDone hc i hf hi =>
    have hle : i = g.ss.length := by
      have := func_le
      simp only [hf, FuncPc.spawned] at this
      omega
    constructor
    · simpa using len
    · simpa using all_ns
    · simpa [hf] using func_ns
    · simp [FuncPc.spawned]
    · simp
    · intro j hj
      have := ones_ns j hj
      simp only [hf, FuncPc.spawned] at this
      simp only [wgDone_ones, wgDone_func, FuncPc.spawned]
      rw [this]
      omega
  | funcGo hc i hf =>
    have hi := func_lt i hf
    constructor
    · simpa using len
    · exact all_ns
    · simpa [hf] using func_ns
    · simp only [FuncPc.spawned]
      omega
    · simp
    · intro j hj
      have := ones_ns j hj
      simp only [hf, FuncPc.spawned] at this
      simp only [FuncPc.spawned]
      by_cases hij : i = j
      · subst hij
        rw [List.getElem?_set_self (by omega)]
        simp
      · rw [List.getElem?_set_ne hij, this]
        omega
  | oneCall hc i c ho hg =>
    constructor <;> (try assumption)
    · simpa using len
    · intro j hj
      rw [← ones_ns j hj]
      exact ones_set_ns ho (by simp) (by simp) j
  | oneReturn hc i c t ho hg ht =>
    constructor <;> (try assumption)
    · simpa using len
    · intro j hj
      rw [← ones_ns j hj]
      exact ones_set_ns ho (by simp) (by simp) j
  | oneDone hc i c ho hg =>
    constructor
    · simpa using len
    · simpa using all_ns
    · simpa using func_ns
    · simpa using func_le
    · simpa using func_lt
    · intro j hj
      simp only [wgDone_ones, wgDone_func]
      rw [← ones_ns j hj]
      exact ones_set_ns ho (by simp) (by simp) j

theorem lt_of_getElem?_eq_some {α : Type} {l : List α} {i : Nat} {x : α}
    (h : l[i]? = some x) : i < l.length := by
  rcases Nat.lt_or_ge i l.length with hlt | hge
  · exact hlt
  · rw [List.getElem?_eq_none hge] at h
    cases h

theorem actives_eq_zero {l : List OnePc}
    (h : ∀ (j : Nat) (x : OnePc), l[j]? = some x → x.active = 0) :
    actives l = 0 := by
  rcases Nat.eq_zero_or_pos (actives l) with h0 | hpos
  · exact h0
  · obtain ⟨j, x, hj, hx⟩ := actives_pos hpos
    have := h j x hj
    omega

theorem active_zero_of_actives {l : List OnePc} (h : actives l = 0) {j : Nat} {x : OnePc}
    (hj : l[j]? = some x) : x.active = 0 := by
  have := actives_set OnePc.notStarted hj
  have h1 : OnePc.notStarted.active = 0 := rfl
  omega

theorem InvPc.func_started {g : grace} {s : State} (hP : InvPc g s) {i : Nat} {x : OnePc}
    (ho : s.ones[i]? = some x) (hx : x ≠ .notStarted) : s.func ≠ .notStarted := by
  intro hf
  have hi : i < g.ss.length := hP.len ▸ lt_of_getElem?_eq_some ho
  have := (hP.ones_ns i hi).2 (by simp [hf, FuncPc.spawned])
  rw [this] at ho
  cases ho
  exact hx rfl

theorem init_invWg (g : grace) : InvWg g (init g) := by
  constructor <;> simp [init]

theorem InvWg.stepWg {g : grace} {e : Env} {s s1 : State} {a : Action}
    (hP : InvPc g s) (hI : InvWg g s) (h : Trans g e s a s1) : InvWg g s1 := by
  obtain ⟨wg_go, wg_eq, closed, done_iff, crash⟩ := hI
  cases h with
  | enter hc hm ht =>
    constructor <;> first | assumption | simp_all
  | notifyNil hc hm hs =>
    constructor <;> first | assumption | simp_all
  | notify hc hm c hs =>
    constructor <;> first | assumption | simp_all
  | recv hc hm t htr ht =>
    constructor <;> first | assumption | simp_all
  | spawn hc hm =>
    constructor <;> first | assumption | simp_all
  | selDone hc hm hd =>
    constructor <;> first | assumption | simp_all
  | selTimeout hc hm d hd ht =>
    constructor <;> first | assumption | simp_all
  | allAdd hc ha =>
    have hf : s.func = .notStarted := hP.func_ns.2 (Or.inr (Or.inl ha))
    constructor <;> first | assumption | simp_all
  | allGo hc ha =>
    have hf : s.func = .notStarted := hP.func_ns.2 (Or.inr (Or.inr ha))
    have h0 : actives s.ones = 0 := by
      apply actives_eq_zero
      intro j x hj
      have hjl : j < g.ss.length := hP.len ▸ lt_of_getElem?_eq_some hj
      have := (hP.ones_ns j hjl).2 (by simp [hf, FuncPc.spawned])
      rw [this] at hj
      cases hj
      rfl
    have hw := wg_go ha
    constructor
    · intro h; cases h
    · intro _
      simp only [FuncPc.hold, h0, hw]
    · intro h
      rcases h with h | h <;> cases h
    · simp only [reduceCtorEq, iff_false]
      intro h
      have := done_iff.1 h
      rw [ha] at this
      cases this
    · exact crash
  | allWait hc ha hw =>
    have hf : s.func ≠ .notStarted := by
      intro hf
      have := hP.func_ns.1 hf
      simp [ha] at this
    have hweq := wg_eq hf
    have hfin : s.func = .finished := by
      cases hfs : s.func with
      | notStarted => exact absurd hfs hf
      | loop i => rw [hfs] at hweq; simp only [FuncPc.hold] at hweq; omega
      | go i => rw [hfs] at hweq; simp only [FuncPc.hold] at hweq; omega
      | finished => rfl
    have h0 : actives s.ones = 0 := by omega
    constructor
    · intro h; cases h
    · exact wg_eq
    · intro _
      refine ⟨hw, hfin, ?_⟩
      intro j hj
      have hjl : j < s.ones.length := hP.len ▸ hj
      obtain ⟨x, hx⟩ : ∃ x, s.ones[j]? = some x := ⟨_, List.getElem?_eq_getElem hjl⟩
      have hact := active_zero_of_actives h0 hx
      have hns : ¬ s.ones[j]? = some .notStarted := by
        rw [hP.ones_ns j hj, hfin]
        simp only [FuncPc.spawned]
        omega
      rw [hx] at hns ⊢
      cases x with
      | notStarted => exact absurd rfl hns
      | call => simp [OnePc.active] at hact
      | running u => simp [OnePc.active] at hact
      | deferred => simp [OnePc.active] at hact
      | finished => rfl
    · simp only [reduceCtorEq, iff_false]
      intro h
      have := done_iff.1 h
      rw [ha] at this
      cases this
    · exact crash
  | allClose hc ha =>
    constructor
    · intro h; cases h
    · exact wg_eq
    · intro _
      exact closed (Or.inl ha)
    · simp
    · exact crash
  | tick hc hr t hn =>
    constructor <;> assumption
  | delay hc d =>
    constructor <;> assumption
  | funcAdd hc i hf hi =>
    have hns : s.func ≠ .notStarted := by rw [hf]; simp
    have hweq := wg_eq hns
    rw [hf] at hweq
    simp only [FuncPc.hold] at hweq
    constructor
    · intro h
      have := hP.func_ns.2 (Or.inr (Or.inr h))
      exact absurd this hns
    · intro _
      simp only [FuncPc.hold]
      omega
    · intro h
      have := (closed h).2.1
      rw [hf] at this
      cases this
    · exact done_iff
    · exact crash
  | funcDone hc i hf hi =>
    have hns : s.func ≠ .notStarted := by rw [hf]; simp
    have hweq := wg_eq hns
    rw [hf] at hweq
    simp only [FuncPc.hold] at hweq
    have hpos := wgDone_pos (s := { s with func := .finished }) (by show 0 < s.wg; omega)
    constructor
    · intro h
      have := hP.func_ns.2 (Or.inr (Or.inr (by simpa using h)))
      exact absurd this hns
    · intro _
      rw [hpos.1]
      simp only [wgDone_func, wgDone_ones, FuncPc.hold]
      omega
    · intro h
      have := (closed (by simpa using h)).2.1
      rw [hf] at this
      cases this
    · simpa using done_iff
    · rw [hpos.2]
      simpa using crash
  | funcGo hc i hf =>
    have hns : s.func ≠ .notStarted := by rw [hf]; simp
    have hweq := wg_eq hns
    rw [hf] at hweq
    simp only [FuncPc.hold] at hweq
    have hi := hP.func_lt i hf
    have ho : s.ones[i]? = some .notStarted :=
      (hP.ones_ns i hi).2 (by simp [hf, FuncPc.spawned])
    have hact := actives_set OnePc.call ho
    simp only [OnePc.active] at hact
    constructor
    · intro h
      have := hP.func_ns.2 (Or.inr (Or.inr h))
      exact absurd this hns
    · intro _
      simp only [FuncPc.hold]
      omega
    · intro h
      have := (closed h).2.1
      rw [hf] at this
      cases this
    · exact done_iff
    · exact crash
  | oneCall hc i c ho hg =>
    have hns := hP.func_started ho (by simp)
    have hi : i < g.ss.length := hP.len ▸ lt_of_getElem?_eq_some ho
    have hact := actives_set (OnePc.running (c.dur.map (fun d => s.now + d))) ho
    simp only [OnePc.active] at hact
    constructor
    · exact wg_go
    · intro _
      have := wg_eq hns
      show s.wg = s.func.hold + actives (s.ones.set i _)
      omega
    · intro h
      have := (closed h).2.2 i hi
      rw [this] at ho
      cases ho
    · exact done_iff
    · exact crash
  | oneReturn hc i c t ho hg ht =>
    have hns := hP.func_started ho (by simp)
    have hi : i < g.ss.length := hP.len ▸ lt_of_getElem?_eq_some ho
    have hact := actives_set OnePc.deferred ho
    simp only [OnePc.active] at hact
    constructor
    · exact wg_go
    · intro _
      have := wg_eq hns
      show s.wg = s.func.hold + actives (s.ones.set i _)
      omega
    · intro h
      have := (closed h).2.2 i hi
      rw [this] at ho
      cases ho
    · exact done_iff
    · exact crash
  | oneDone hc i c ho hg =>
    have hns := hP.func_started ho (by simp)
    have hi : i < g.ss.length := hP.len ▸ lt_of_getElem?_eq_some ho
    have hact := actives_set OnePc.finished ho
    simp only [OnePc.active] at hact
    have hweq := wg_eq hns
    have hpos := wgDone_pos (s := { s with ones := s.ones.set i .finished })
      (by show 0 < s.wg; omega)
    constructor
    · intro h
      have := hP.func_ns.2 (Or.inr (Or.inr (by simpa using h)))
      exact absurd this hns
    · intro _
      rw [hpos.1]
      simp only [wgDone_func, wgDone_ones]
      show s.wg - 1 = s.func.hold + actives (s.ones.set i _)
      omega
    · intro h
      have := (closed (by simpa using h)).2.2 i hi
      rw [this] at ho
      cases ho
    · simpa using done_iff
    · rw [hpos.2]
      simpa using crash

theorem nextAlarm_spec {e : Env} {s : State} {t : Nat} (h : nextAlarm e s = some t) :
    t ∈ alarms e s ∧ s.now < t ∧ ∀ u ∈ alarms e s, s.now < u → t ≤ u := by
  unfold nextAlarm at h
  rw [List.min?_eq_some_iff'] at h
  obtain ⟨hmem, hmin⟩ := h
  rw [List.mem_filter] at hmem
  refine ⟨hmem.1, by simpa using hmem.2, ?_⟩
  intro u hu hlt
  exact hmin u (List.mem_filter.2 ⟨hu, by simpa using hlt⟩)

theorem init_invMain (g : grace) (e : Env) : InvMain g e (init g) := by
  constructor <;> simp [init, MainPc.early]

theorem InvMain.stepMain {g : grace} {e : Env} {s s1 : State} {a : Action}
    (hI : InvMain g e s) (h : Trans g e s a s1) : InvMain g e s1 := by
  obtain ⟨recv_eq, trig, dl_idle, dl_some, ret⟩ := hI
  cases h with
  | enter hc hm ht =>
    constructor
    · simpa [hm, MainPc.early] using recv_eq
    · simp [MainPc.early]
    · simp
    · intro _
      exact ⟨s.now, ht, le_refl _, rfl⟩
    · simp
  | notifyNil hc hm hs =>
    constructor <;> assumption
  | notify hc hm c hs =>
    constructor
    · simpa [hm, MainPc.early] using recv_eq
    · simp [MainPc.early]
    · simp
    · intro _
      exact dl_some (by simp [hm])
    · simp
  | recv hc hm t htr ht =>
    constructor
    · simpa [hm, MainPc.early] using recv_eq
    · intro _
      exact ⟨t, htr, ht⟩
    · simp
    · intro _
      exact dl_some (by simp [hm])
    · simp
  | spawn hc hm =>
    constructor
    · simpa [hm, MainPc.early] using recv_eq
    · intro _
      exact trig (by simp [hm, MainPc.early])
    · simp
    · intro _
      exact dl_some (by simp [hm])
    · simp
  | selDone hc hm hd =>
    constructor
    · simpa [hm, MainPc.early] using recv_eq
    · intro _
      exact trig (by simp [hm, MainPc.early])
    · simp
    · intro _
      exact dl_some (by simp [hm])
    · intro r hr
      simp only [MainPc.returned.injEq] at hr
      exact Or.inl ⟨hr.symm, hd⟩
  | selTimeout hc hm d hd ht =>
    constructor
    · simpa [hm, MainPc.early] using recv_eq
    · intro _
      exact trig (by simp [hm, MainPc.early])
    · simp
    · intro _
      exact dl_some (by simp [hm])
    · intro r hr
      simp only [MainPc.returned.injEq] at hr
      exact Or.inr ⟨hr.symm, d, hd, ht⟩
  | allAdd hc ha =>
    constructor <;> assumption
  | allGo hc ha =>
    constructor <;> assumption
  | allWait hc ha hw =>
    constructor <;> assumption
  | allClose hc ha =>
    constructor <;> (try assumption)
    intro r hr
    rcases ret r hr with h | h
    · exact Or.inl ⟨h.1, rfl⟩
    · exact Or.inr h
  | funcAdd hc i hf hi =>
    constructor <;> assumption
  | funcDone hc i hf hi =>
    constructor
    · simpa using recv_eq
    · simpa using trig
    · simpa using dl_idle
    · simpa using dl_some
    · simpa using ret
  | funcGo hc i hf =>
    constructor <;> assumption
  | oneCall hc i c ho hg =>
    constructor <;> assumption
  | oneReturn hc i c t ho hg ht =>
    constructor <;> assumption
  | oneDone hc i c ho hg =>
    constructor
    · simpa using recv_eq
    · simpa using trig
    · simpa using dl_idle
    · simpa using dl_some
    · simpa using ret
  | tick hc hr t hn =>
    have hlt := (nextAlarm_spec hn).2.1
    constructor
    · exact recv_eq
    · intro h
      obtain ⟨u, hu, hle⟩ := trig h
      exact ⟨u, hu, by show u ≤ t; omega⟩
    · exact dl_idle
    · intro h
      obtain ⟨t0, h1, h2, h3⟩ := dl_some h
      exact ⟨t0, h1, by show t0 ≤ t; omega, h3⟩
    · intro r hr
      rcases ret r hr with h | ⟨h1, d, h2, h3⟩
      · exact Or.inl h
      · exact Or.inr ⟨h1, d, h2, by show d ≤ (t : Int); omega⟩
  | delay hc d =>
    constructor
    · exact recv_eq
    · intro h
      obtain ⟨u, hu, hle⟩ := trig h
      exact ⟨u, hu, by show u ≤ s.now + d; omega⟩
    · exact dl_idle
    · intro h
      obtain ⟨t0, h1, h2, h3⟩ := dl_some h
      exact ⟨t0, h1, by show t0 ≤ s.now + d; omega, h3⟩
    · intro r hr
      rcases ret r hr with h | ⟨h1, d0, h2, h3⟩
      · exact Or.inl h
      · exact Or.inr ⟨h1, d0, h2, by show d0 ≤ ((s.now + d : Nat) : Int); omega⟩

theorem invoked_set {l : List OnePc} {i : Nat} {x y : OnePc} (h : l[i]? = some x)
    (hxy : x.invoked = y.invoked) (j : Nat) :
    ((l.set i y)[j]?).map OnePc.invoked = (l[j]?).map OnePc.invoked := by
  have hi := lt_of_getElem?_eq_some h
  by_cases hij : i = j
  · subst hij
    rw [List.getElem?_set_self hi, h]
    simp [hxy]
  · rw [List.getElem?_set_ne hij]

theorem init_invCalls (g : grace) : InvCalls (init g) := by
  constructor <;> simp [init]
  intro j
  rw [if_neg]
  rintro ⟨a, ha, hb⟩
  rw [List.getElem?_replicate] at ha
  split at ha
  · cases ha
    simp [OnePc.invoked] at hb
  · simp at ha

theorem InvCalls.stepCalls {g : grace} {e : Env} {s s1 : State} {a : Action}
    (hP : InvPc g s) (hI : InvCalls s) (h : Trans g e s a s1) : InvCalls s1 := by
  obtain ⟨calls_cnt, calls_ctx, calls_nil⟩ := hI
  cases h with
  | enter hc hm ht =>
    have hall : s.all = .notStarted := hP.all_ns.2 (Or.inl (by simp [hm, MainPc.early]))
    have hf : s.func = .notStarted := hP.func_ns.2 (Or.inl hall)
    have hnil := calls_nil hf
    constructor
    · exact calls_cnt
    · intro c hcm
      have hcm2 : c ∈ s.calls := hcm
      rw [hnil] at hcm2
      cases hcm2
    · exact calls_nil
  | notifyNil hc hm hs => constructor <;> assumption
  | notify hc hm c hs => constructor <;> assumption
  | recv hc hm t htr ht => constructor <;> assumption
  | spawn hc hm => constructor <;> assumption
  | selDone hc hm hd => constructor <;> assumption
  | selTimeout hc hm d hd ht => constructor <;> assumption
  | allAdd hc ha => constructor <;> assumption
  | allGo hc ha =>
    constructor <;> (try assumption)
    intro h
    cases h
  | allWait hc ha hw => constructor <;> assumption
  | allClose hc ha => constructor <;> assumption
  | funcAdd hc i hf hi =>
    constructor <;> (try assumption)
    intro h
    cases h
  | funcDone hc i hf hi =>
    constructor
    · simpa using calls_cnt
    · simpa using calls_ctx
    · intro h
      simp at h
  | funcGo hc i hf =>
    have hi := hP.func_lt i hf
    have ho : s.ones[i]? = some .notStarted :=
      (hP.ones_ns i hi).2 (by simp [hf, FuncPc.spawned])
    constructor
    · intro j
      have := invoked_set (y := OnePc.call) ho rfl j
      show _ = if ((s.ones.set i OnePc.call)[j]?).map OnePc.invoked = some true then 1 else 0
      rw [this]
      exact calls_cnt j
    · exact calls_ctx
    · intro h
      cases h
  | oneCall hc i c ho hg =>
    have hns := hP.func_started ho (by simp)
    have hi := lt_of_getElem?_eq_some ho
    constructor
    · intro j
      show ((s.calls ++ [(i, s.deadline)]).map Prod.fst).count j =
        if ((s.ones.set i (OnePc.running (c.dur.map (fun d => s.now + d))))[j]?).map
          OnePc.invoked = some true then 1 else 0
      have hcj := calls_cnt j
      by_cases hij : i = j
      · subst hij
        rw [List.getElem?_set_self hi]
        rw [ho] at hcj
        simp only [Option.map_some', OnePc.invoked, Option.some.injEq, Bool.false_eq_true,
          if_false] at hcj
        simp [List.count_append, hcj, OnePc.invoked]
      · rw [List.getElem?_set_ne hij]
        rw [← hcj]
        simp [List.count_append, List.count_singleton, hij]
    · intro x hx
      show x.2 = s.deadline
      have hx2 : x ∈ s.calls ++ [(i, s.deadline)] := hx
      rw [List.mem_append] at hx2
      rcases hx2 with h | h
      · exact calls_ctx x h
      · simp only [List.mem_singleton] at h
        rw [h]
    · intro h
      exact absurd h hns
  | oneReturn hc i c t ho hg ht =>
    constructor <;> (try assumption)
    intro j
    have := invoked_set (y := OnePc.deferred) ho rfl j
    show _ = if ((s.ones.set i OnePc.deferred)[j]?).map OnePc.invoked = some true then 1 else 0
    rw [this]
    exact calls_cnt j
  | oneDone hc i c ho hg =>
    constructor
    · intro j
      have := invoked_set (y := OnePc.finished) ho rfl j
      simp only [wgDone_calls, wgDone_ones]
      show _ = if ((s.ones.set i OnePc.finished)[j]?).map OnePc.invoked = some true
        then 1 else 0
      rw [this]
      exact calls_cnt j
    · simpa using calls_ctx
    · simpa using calls_nil
  | tick hc hr t hn => constructor <;> assumption
  | delay hc d => constructor <;> assumption

theorem init_inv (g : grace) (e : Env) : Inv g e (init g) :=
  ⟨init_invPc g, init_invWg g, init_invMain g e, init_invCalls g⟩

theorem Inv.stepInv {g : grace} {e : Env} {s s1 : State} {a : Action}
    (hI : Inv g e s) (h : Trans g e s a s1) : Inv g e s1 :=
  ⟨hI.pc.stepPc h, hI.wg.stepWg hI.pc h, hI.main.stepMain h, hI.calls.stepCalls hI.pc h⟩

theorem exec_inv {g : grace} {e : Env} {acts : List Action} {s s1 : State}
    (hI : Inv g e s) (h : exec g e s acts = some s1) : Inv g e s1 := by
  induction acts generalizing s with
  | nil =>
    simp only [exec, Option.some.injEq] at h
    exact h ▸ hI
  | cons a as ih =>
    simp only [exec] at h
    cases hs : step g e s a with
    | none => simp [hs] at h
    | some s2 =>
      rw [hs] at h
      exact ih (hI.stepInv (step_trans hs)) h

theorem run_inv {g : grace} {e : Env} {acts : List Action} {s : State}
    (h : run g e acts = some s) : Inv g e s :=
  exec_inv (init_inv g e) h

/-! ## Schedules without scheduling latency -/

theorem canRun_false {g : grace} {e : Env} {s : State} (h : canRun g e s = false) :
    Grace g e s = none ∧ GraceTimeout s = none ∧ shutdownAll s = none ∧
    shutdownAllFunc g s = none ∧ ∀ i, i < g.ss.length → shutdownOne g s i = none := by
  unfold canRun at h
  rw [List.any_eq_false] at h
  have key : ∀ a ∈ instants g, instant g e s a = none := by
    intro a ha
    have := h a ha
    simpa using this
  refine ⟨key .grace (by simp [instants]), key .graceTimeout (by simp [instants]),
    key .all (by simp [instants]), key .func (by simp [instants]), ?_⟩
  intro i hi
  exact key (.one i) (by simp [instants, hi])

theorem State.starting_all {s : State} (h : s.all.starting = true) : s.starting :=
  Or.inl h

theorem State.starting_func {s : State} (h : s.func.looping = true) : s.starting :=
  Or.inr (Or.inl h)

theorem State.starting_call {s : State} {j : Nat} (h : s.ones[j]? = some .call) :
    s.starting :=
  Or.inr (Or.inr ⟨j, h⟩)

/-- A step after which some call is still to be made started from such a
state, when it created no goroutine that is still to make its call. -/
theorem State.starting_mono (s : State) {s1 : State} (h : s1.starting)
    (hall : s1.all.starting = true → s.all.starting = true) (hfunc : s1.func = s.func)
    (hones : ∀ j : Nat, s1.ones[j]? = some .call → s.ones[j]? = some .call) :
    s.starting := by
  rcases h with h | h | ⟨j, h⟩
  · exact State.starting_all (hall h)
  · exact State.starting_func (hfunc ▸ h)
  · exact State.starting_call (hones j h)

theorem init_invTime (g : grace) (e : Env) : InvTime g e (init g) := by
  constructor <;> simp [init, MainPc.early, Env.start]
  · intro j u h
    rw [List.getElem?_replicate] at h
    split at h <;> simp at h
  · intro j x h hx
    rw [List.getElem?_replicate] at h
    split at h
    · simp only [Option.some.injEq] at h
      subst h
      simp [OnePc.returned] at hx
    · simp at h

theorem mem_alarms {e : Env} {s : State} {t : Nat} :
    t ∈ alarms e s ↔ t ∈ mainAlarm e s ∨ ∃ j : Nat, s.ones[j]? = some (.running (some t)) := by
  unfold alarms
  rw [List.mem_append, List.mem_filterMap]
  constructor
  · rintro (h | ⟨x, hx, hxt⟩)
    · exact Or.inl h
    · right
      obtain ⟨j, hj⟩ := List.mem_iff_getElem?.1 hx
      cases x with
      | running u =>
        simp only [OnePc.alarm] at hxt
        subst hxt
        exact ⟨j, hj⟩
      | _ => simp [OnePc.alarm] at hxt
  · rintro (h | ⟨j, hj⟩)
    · exact Or.inl h
    · exact Or.inr ⟨_, List.mem_iff_getElem?.2 ⟨j, hj⟩, rfl⟩

theorem Env.enter_le_start (e : Env) : e.enter ≤ e.start := by
  unfold Env.start
  omega

theorem Env.trig_le_start {e : Env} {t : Nat} (h : e.trig = some t) : t ≤ e.start := by
  unfold Env.start
  rw [h]
  simp

theorem Env.start_le_of {e : Env} {t n : Nat} (h : e.trig = some t) (h1 : e.enter ≤ n)
    (h2 : t ≤ n) : e.start ≤ n := by
  unfold Env.start
  rw [h]
  simp only [Option.getD_some]
  omega

/-- Once a goroutine of `shutdownOne` exists, `Grace` is past the receive. -/
theorem Inv.not_early {g : grace} {e : Env} {s : State} (hI : Inv g e s)
    (hf : s.func ≠ .notStarted) : s.main.early = false ∧ s.main ≠ .spawn := by
  have h1 : s.all ≠ .notStarted := fun h => hf (hI.pc.func_ns.2 (Or.inl h))
  have h2 := fun h => h1 (hI.pc.all_ns.2 h)
  constructor
  · cases hm : s.main.early with
    | false => rfl
    | true => exact absurd (Or.inl hm) h2
  · intro hm
    exact h2 (Or.inr hm)

theorem getElem?_set_cases {α : Type} {l : List α} {i j : Nat} {y z : α}
    (h : (l.set i y)[j]? = some z) : (j = i ∧ z = y) ∨ (j ≠ i ∧ l[j]? = some z) := by
  by_cases hij : i = j
  · subst hij
    have hi : i < l.length := by
      have := lt_of_getElem?_eq_some h
      simpa using this
    rw [List.getElem?_set_self hi] at h
    simp only [Option.some.injEq] at h
    exact Or.inl ⟨rfl, h.symm⟩
  · rw [List.getElem?_set_ne hij] at h
    exact Or.inr ⟨fun h2 => hij h2.symm, h⟩

theorem InvTime.tickTime {g : grace} {e : Env} {s : State} {t : Nat}
    (hI : Inv g e s) (hT : InvTime g e s)
    (hr : canRun g e s = false) (hn : nextAlarm e s = some t) :
    InvTime g e { s with now := t } := by
  obtain ⟨hmem, hlt, hmin⟩ := nextAlarm_spec hn
  obtain ⟨hG, hGT, hA, hF, hO⟩ := canRun_false hr
  have hidle : s.main = .idle → t ≤ e.enter := by
    intro hm
    apply hmin
    · rw [mem_alarms]
      left
      simp [mainAlarm, hm]
    · simp only [Grace, hm] at hG
      split at hG
      · cases hG
      · omega
  constructor
  · exact hidle
  · exact hT.dl
  · intro h
    have := hT.start_le h
    show e.start ≤ t
    omega
  · intro hs1
    show t ≤ e.start
    have hs : s.starting := hs1
    rcases hs with hst | hst | ⟨j, h⟩
    · cases h : s.all with
      | add => simp [shutdownAll, h] at hA
      | goFunc => simp [shutdownAll, h] at hA
      | wait => simp [h, AllPc.starting] at hst
      | close => simp [h, AllPc.starting] at hst
      | finished => simp [h, AllPc.starting] at hst
      | notStarted =>
      have hf : s.func = .notStarted := hI.pc.func_ns.2 (Or.inl h)
      have hm := hI.pc.all_ns.1 h
      cases hmain : s.main with
      | idle =>
        have := hidle hmain
        have := e.enter_le_start
        omega
      | notify =>
        simp only [Grace, hmain] at hG
        split at hG <;> cases hG
      | recv =>
        cases htr : e.trig with
        | none =>
          rw [mem_alarms] at hmem
          rcases hmem with h1 | ⟨j, hj⟩
          · simp [mainAlarm, hmain, htr] at h1
          · have := hI.pc.func_started hj (by simp)
            exact absurd hf this
        | some u =>
          have h1 : t ≤ u := by
            apply hmin
            · rw [mem_alarms]
              left
              simp [mainAlarm, hmain, htr]
            · simp only [Grace, hmain, htr] at hG
              split at hG
              · cases hG
              · omega
          have := Env.trig_le_start htr
          omega
      | spawn =>
        simp only [Grace, hmain] at hG
        cases hG
      | sel => simp [hmain, MainPc.early] at hm
      | returned r => simp [hmain, MainPc.early] at hm
    · cases h : s.func with
      | notStarted => simp [h, FuncPc.looping] at hst
      | finished => simp [h, FuncPc.looping] at hst
      | loop i =>
        simp only [shutdownAllFunc, h] at hF
        split at hF <;> cases hF
      | go i => simp [shutdownAllFunc, h] at hF
    · have hj : j < g.ss.length := hI.pc.len ▸ lt_of_getElem?_eq_some h
      have := hO j hj
      obtain ⟨c, hc2⟩ : ∃ c, g.ss[j]? = some c := ⟨_, List.getElem?_eq_getElem hj⟩
      simp [shutdownOne, h, hc2] at this
  · exact hT.running
  · intro j x hj hx
    obtain ⟨c, D, h1, h2, h3⟩ := hT.fin j x hj hx
    exact ⟨c, D, h1, h2, by show e.start + D ≤ t; omega⟩
  · intro hm1
    have hm : s.main = .sel := hm1
    right
    show (t : Int) ≤ (e.enter : Int) + g.td
    have hdl := hT.dl (by rw [hm]; simp)
    simp only [GraceTimeout, hm, hdl] at hGT
    split at hGT
    · cases hGT
    · rename_i hnot
      have h1 : t ≤ ((e.enter : Int) + g.td).toNat := by
        apply hmin
        · rw [mem_alarms]
          left
          simp [mainAlarm, hm, hdl]
        · omega
      omega

theorem InvTime.stepTime {g : grace} {e : Env} {s s1 : State} {a : Action}
    (hI : Inv g e s) (hT : InvTime g e s) (h : Trans g e s a s1)
    (hp : ∀ d, a ≠ .delay d) : InvTime g e s1 := by
  cases h with
  | enter hc hm ht =>
    have hnow := hT.idle_le hm
    constructor
    · intro h; cases h
    · intro _
      show some ((s.now : Int) + g.td) = some ((e.enter : Int) + g.td)
      have : s.now = e.enter := by omega
      rw [this]
    · intro h; simp [MainPc.early] at h
    · exact hT.starting
    · exact hT.running
    · exact hT.fin
    · intro h; cases h
  | notifyNil hc hm hs =>
    exact ⟨hT.idle_le, hT.dl, hT.start_le, hT.starting, hT.running, hT.fin, hT.sel⟩
  | notify hc hm c hs =>
    constructor
    · intro h; cases h
    · intro _
      exact hT.dl (by rw [hm]; simp)
    · intro h; simp [MainPc.early] at h
    · exact hT.starting
    · exact hT.running
    · exact hT.fin
    · intro h; cases h
  | recv hc hm t htr ht =>
    obtain ⟨t0, h1, h2, _⟩ := hI.main.dl_some (by rw [hm]; simp)
    constructor
    · intro h; cases h
    · intro _
      exact hT.dl (by rw [hm]; simp)
    · intro _
      have h3 : e.enter ≤ s.now := by omega
      exact Env.start_le_of htr h3 ht
    · exact hT.starting
    · exact hT.running
    · exact hT.fin
    · intro h; cases h
  | spawn hc hm =>
    have hall : s.all = .notStarted := hI.pc.all_ns.2 (Or.inr hm)
    have hle := hT.starting (State.starting_all (by rw [hall]; rfl))
    constructor
    · intro h; cases h
    · intro _
      exact hT.dl (by rw [hm]; simp)
    · intro _
      exact hT.start_le (by rw [hm]; rfl)
    · intro _
      exact hle
    · exact hT.running
    · exact hT.fin
    · intro _
      exact Or.inl hle
  | selDone hc hm hd =>
    constructor
    · intro h; cases h
    · intro _
      exact hT.dl (by rw [hm]; simp)
    · intro _
      exact hT.start_le (by rw [hm]; rfl)
    · exact hT.starting
    · exact hT.running
    · exact hT.fin
    · intro h; cases h
  | selTimeout hc hm d hd ht =>
    constructor
    · intro h; cases h
    · intro _
      exact hT.dl (by rw [hm]; simp)
    · intro _
      exact hT.start_le (by rw [hm]; rfl)
    · exact hT.starting
    · exact hT.running
    · exact hT.fin
    · intro h; cases h
  | allAdd hc ha =>
    have hle := hT.starting (State.starting_all (by rw [ha]; rfl))
    exact ⟨hT.idle_le, hT.dl, hT.start_le, fun _ => hle, hT.running, hT.fin, hT.sel⟩
  | allGo hc ha =>
    have hle := hT.starting (State.starting_all (by rw [ha]; rfl))
    exact ⟨hT.idle_le, hT.dl, hT.start_le, fun _ => hle, hT.running, hT.fin, hT.sel⟩
  | allWait hc ha hw =>
    refine ⟨hT.idle_le, hT.dl, hT.start_le, ?_, hT.running, hT.fin, hT.sel⟩
    intro hs
    exact hT.starting (State.starting_mono s hs (fun h => absurd h (by simp [AllPc.starting]))
      rfl (fun _ h => h))
  | allClose hc ha =>
    refine ⟨hT.idle_le, hT.dl, hT.start_le, ?_, hT.running, hT.fin, hT.sel⟩
    intro hs
    exact hT.starting (State.starting_mono s hs (fun h => absurd h (by simp [AllPc.starting]))
      rfl (fun _ h => h))
  | funcAdd hc i hf hi =>
    have hle := hT.starting (State.starting_func (by rw [hf]; rfl))
    exact ⟨hT.idle_le, hT.dl, hT.start_le, fun _ => hle, hT.running, hT.fin, hT.sel⟩
  | funcDone hc i hf hi =>
    have hle := hT.starting (State.starting_func (by rw [hf]; rfl))
    constructor
    · simpa using hT.idle_le
    · simpa using hT.dl
    · simpa using hT.start_le
    · intro _
      simpa using hle
    · simpa using hT.running
    · simpa using hT.fin
    · intro hm
      simp only [wgDone_main, wgDone_now] at hm ⊢
      exact hT.sel hm
  | funcGo hc i hf =>
    have hle := hT.starting (State.starting_func (by rw [hf]; rfl))
    refine ⟨hT.idle_le, hT.dl, hT.start_le, fun _ => hle, ?_, ?_, hT.sel⟩
    · intro j u hj
      have hj2 : (s.ones.set i OnePc.call)[j]? = some (.running u) := hj
      rcases getElem?_set_cases hj2 with ⟨_, h2⟩ | ⟨_, h2⟩
      · cases h2
      · exact hT.running j u h2
    · intro j x hj hx
      have hj2 : (s.ones.set i OnePc.call)[j]? = some x := hj
      rcases getElem?_set_cases hj2 with ⟨_, h2⟩ | ⟨_, h2⟩
      · subst h2
        simp [OnePc.returned] at hx
      · exact hT.fin j x h2 hx
  | oneCall hc i c ho hg =>
    have hle := hT.starting (State.starting_call ho)
    have hge := hT.start_le (hI.not_early (hI.pc.func_started ho (by simp))).1
    have hnow : s.now = e.start := by omega
    refine ⟨hT.idle_le, hT.dl, hT.start_le, fun _ => hle, ?_, ?_, hT.sel⟩
    · intro j u hj
      have hj2 : (s.ones.set i (OnePc.running (c.dur.map (fun d => s.now + d))))[j]?
          = some (.running u) := hj
      rcases getElem?_set_cases hj2 with ⟨h1, h2⟩ | ⟨_, h2⟩
      · subst h1
        simp only [OnePc.running.injEq] at h2
        exact ⟨c, hg, by rw [h2, hnow]⟩
      · exact hT.running j u h2
    · intro j x hj hx
      have hj2 : (s.ones.set i (OnePc.running (c.dur.map (fun d => s.now + d))))[j]?
          = some x := hj
      rcases getElem?_set_cases hj2 with ⟨_, h2⟩ | ⟨_, h2⟩
      · subst h2
        simp [OnePc.returned] at hx
      · exact hT.fin j x h2 hx
  | oneReturn hc i c t ho hg ht =>
    obtain ⟨c2, hc2, hu⟩ := hT.running i (some t) ho
    refine ⟨hT.idle_le, hT.dl, hT.start_le, ?_, ?_, ?_, hT.sel⟩
    · intro hs
      refine hT.starting (State.starting_mono s hs (fun h => h) rfl ?_)
      intro j h
      have hj2 : (s.ones.set i OnePc.deferred)[j]? = some .call := h
      rcases getElem?_set_cases hj2 with ⟨_, h2⟩ | ⟨_, h2⟩
      · cases h2
      · exact h2
    · intro j u hj
      have hj2 : (s.ones.set i OnePc.deferred)[j]? = some (.running u) := hj
      rcases getElem?_set_cases hj2 with ⟨_, h2⟩ | ⟨_, h2⟩
      · cases h2
      · exact hT.running j u h2
    · intro j x hj hx
      have hj2 : (s.ones.set i OnePc.deferred)[j]? = some x := hj
      rcases getElem?_set_cases hj2 with ⟨h1, h2⟩ | ⟨_, h2⟩
      · subst h1
        cases hd : c2.dur with
        | none => rw [hd] at hu; simp at hu
        | some D =>
          rw [hd] at hu
          simp only [Option.map_some', Option.some.injEq] at hu
          exact ⟨c2, D, hc2, hd, by show e.start + D ≤ s.now; omega⟩
      · exact hT.fin j x h2 hx
  | oneDone hc i c ho hg =>
    have hfin := hT.fin i .deferred ho rfl
    constructor
    · simpa using hT.idle_le
    · simpa using hT.dl
    · simpa using hT.start_le
    · intro hs
      simp only [wgDone_now]
      refine hT.starting (State.starting_mono s hs (fun h => by simpa using h) (by simp) ?_)
      intro j h
      have hj2 : (s.ones.set i OnePc.finished)[j]? = some .call := by simpa using h
      rcases getElem?_set_cases hj2 with ⟨_, h2⟩ | ⟨_, h2⟩
      · cases h2
      · exact h2
    · intro j u hj
      have hj2 : (s.ones.set i OnePc.finished)[j]? = some (.running u) := by simpa using hj
      rcases getElem?_set_cases hj2 with ⟨_, h2⟩ | ⟨_, h2⟩
      · cases h2
      · exact hT.running j u h2
    · intro j x hj hx
      have hj2 : (s.ones.set i OnePc.finished)[j]? = some x := by simpa using hj
      simp only [wgDone_now]
      rcases getElem?_set_cases hj2 with ⟨h1, h2⟩ | ⟨_, h2⟩
      · subst h1
        exact hfin
      · exact hT.fin j x h2 hx
    · intro hm
      simp only [wgDone_main, wgDone_now] at hm ⊢
      exact hT.sel hm
  | tick hc hr t hn => exact hT.tickTime hI hr hn
  | delay hc d => exact absurd rfl (hp d)

theorem rems_set {l : List OnePc} {i : Nat} {x : OnePc} (y : OnePc)
    (h : l[i]? = some x) :
    ((l.set i y).map OnePc.rem).sum + x.rem = (l.map OnePc.rem).sum + y.rem := by
  induction l generalizing i with
  | nil => simp at h
  | cons a l ih =>
    cases i with
    | zero =>
      simp only [List.getElem?_cons_zero, Option.some.injEq] at h
      subst h
      simp only [List.set_cons_zero, List.map_cons, List.sum_cons]
      omega
    | succ i =>
      simp only [List.getElem?_cons_succ] at h
      have := ih h
      simp only [List.set_cons_succ, List.map_cons, List.sum_cons] at this ⊢
      omega

theorem canRun_of_instant {g : grace} {e : Env} {s : State} {a : Action}
    (ha : a ∈ instants g) (h : (instant g e s a).isSome = true) : canRun g e s = true := by
  unfold canRun
  rw [List.any_eq_true]
  exact ⟨a, ha, h⟩

theorem step_grace {g : grace} {e : Env} {s : State} (hc : s.crashed = false) :
    step g e s .grace = Grace g e s := by
  simp [step, hc, instant]

theorem step_graceTimeout {g : grace} {e : Env} {s : State} (hc : s.crashed = false) :
    step g e s .graceTimeout = GraceTimeout s := by
  simp [step, hc, instant]

theorem step_all {g : grace} {e : Env} {s : State} (hc : s.crashed = false) :
    step g e s .all = shutdownAll s := by
  simp [step, hc, instant]

theorem step_func {g : grace} {e : Env} {s : State} (hc : s.crashed = false) :
    step g e s .func = shutdownAllFunc g s := by
  simp [step, hc, instant]

theorem step_one {g : grace} {e : Env} {s : State} (hc : s.crashed = false) (i : Nat) :
    step g e s (.one i) = shutdownOne g s i := by
  simp [step, hc, instant]

/-- A state that is not crashed and in which some goroutine can run has a step
that is not a scheduling latency. -/
theorem step_of_canRun {g : grace} {e : Env} {s : State} (hc : s.crashed = false)
    (h : canRun g e s = true) :
    ∃ a, (∀ d, a ≠ .delay d) ∧ (step g e s a).isSome = true := by
  unfold canRun at h
  rw [List.any_eq_true] at h
  obtain ⟨a, ha, hs⟩ := h
  refine ⟨a, ?_, ?_⟩
  · intro d hd
    subst hd
    simp [instant] at hs
  · cases a with
    | grace => rw [step_grace hc]; exact hs
    | graceTimeout => rw [step_graceTimeout hc]; exact hs
    | all => rw [step_all hc]; exact hs
    | func => rw [step_func hc]; exact hs
    | one i => rw [step_one hc]; exact hs
    | tick => simp [instant] at hs
    | delay d => simp [instant] at hs

/-- A state that is not crashed and has an alarm in the future has a step that
is not a scheduling latency: a goroutine runs, or time passes. -/
theorem step_of_alarm {g : grace} {e : Env} {s : State} (hc : s.crashed = false)
    {u : Nat} (hu : u ∈ alarms e s) (hlt : s.now < u) :
    ∃ a, (∀ d, a ≠ .delay d) ∧ (step g e s a).isSome = true := by
  cases hr : canRun g e s with
  | true => exact step_of_canRun hc hr
  | false =>
    refine ⟨.tick, (by intro d hd; cases hd), ?_⟩
    have hne : nextAlarm e s ≠ none := by
      unfold nextAlarm
      rw [Ne, List.min?_eq_none_iff]
      intro h
      have : u ∈ (alarms e s).filter (fun t => s.now < t) :=
        List.mem_filter.2 ⟨hu, by simpa using hlt⟩
      rw [h] at this
      cases this
    cases hn : nextAlarm e s with
    | none => exact absurd hn hne
    | some t => simp [step, hc, hr, hn]

/-- As long as `Grace` has not returned and a trigger is to come, the system is
not stuck. -/
theorem grace_progress {g : grace} {e : Env} {s : State} (hI : Inv g e s)
    (hsig : g.sig ≠ none) {t : Nat} (htr : e.trig = some t)
    (hm : s.main.isReturned = false) :
    ∃ a, (∀ d, a ≠ .delay d) ∧ (step g e s a).isSome = true := by
  have hc : s.crashed = false := by
    cases h : s.crashed with
    | false => rfl
    | true => exact absurd (hI.wg.crash h).1 hsig
  have hgr : (Grace g e s).isSome = true →
      ∃ a, (∀ d, a ≠ .delay d) ∧ (step g e s a).isSome = true := by
    intro h
    exact ⟨.grace, (by intro d hd; cases hd), (by rw [step_grace hc]; exact h)⟩
  cases hmain : s.main with
  | idle =>
    by_cases hen : e.enter ≤ s.now
    · exact hgr (by simp [Grace, hmain, hen])
    · exact step_of_alarm hc (u := e.enter)
        (by rw [mem_alarms]; left; simp [mainAlarm, hmain]) (by omega)
  | notify =>
    cases hs : g.sig with
    | none => exact absurd hs hsig
    | some c => exact hgr (by simp [Grace, hmain, hs])
  | recv =>
    by_cases hen : t ≤ s.now
    · exact hgr (by simp [Grace, hmain, htr, hen])
    · exact step_of_alarm hc (u := t)
        (by rw [mem_alarms]; left; simp [mainAlarm, hmain, htr]) (by omega)
  | spawn => exact hgr (by simp [Grace, hmain])
  | sel =>
    obtain ⟨t0, _, _, hdl⟩ := hI.main.dl_some (by rw [hmain]; simp)
    cases hd : s.doneClosed with
    | true => exact hgr (by simp [Grace, hmain, hd])
    | false =>
      by_cases hle : (t0 : Int) + g.td ≤ (s.now : Int)
      · refine ⟨.graceTimeout, (by intro d hd; cases hd), ?_⟩
        rw [step_graceTimeout hc]
        simp [GraceTimeout, hmain, hdl, hle]
      · exact step_of_alarm hc (u := ((t0 : Int) + g.td).toNat)
          (by rw [mem_alarms]; left; simp [mainAlarm, hmain, hdl]) (by omega)
  | returned r => simp [hmain, MainPc.isReturned] at hm

theorem pending_wgDone_le (g : grace) (s : State) : (wgDone s).pending g ≤ s.pending g := by
  unfold wgDone
  split
  · cases hcr : s.crashed <;> simp [State.pending, hcr]
  · exact le_refl _

/-- Every statement executed takes one off the pending statements. -/
theorem pending_step {g : grace} {e : Env} {s s1 : State} {a : Action}
    (hI : Inv g e s) (h : Trans g e s a s1) (hp : ∀ d, a ≠ .delay d) (ht : a ≠ .tick) :
    s1.pending g + 1 ≤ s.pending g := by
  cases h with
  | enter hc hm ht =>
    simp only [State.pending, hm, MainPc.rem]; omega
  | notifyNil hc hm hs =>
    simp only [State.pending, hc]; simp; omega
  | notify hc hm c hs =>
    simp only [State.pending, hm, MainPc.rem]; omega
  | recv hc hm t htr ht =>
    simp only [State.pending, hm, MainPc.rem]; omega
  | spawn hc hm =>
    have hall : s.all = .notStarted := hI.pc.all_ns.2 (Or.inr hm)
    simp only [State.pending, hm, hall, MainPc.rem, AllPc.rem]; omega
  | selDone hc hm hd =>
    simp only [State.pending, hm, MainPc.rem]; omega
  | selTimeout hc hm d hd ht =>
    simp only [State.pending, hm, MainPc.rem]; omega
  | allAdd hc ha =>
    simp only [State.pending, ha, AllPc.rem]; omega
  | allGo hc ha =>
    have hf : s.func = .notStarted := hI.pc.func_ns.2 (Or.inr (Or.inr ha))
    simp only [State.pending, ha, hf, AllPc.rem, FuncPc.rem]; omega
  | allWait hc ha hw =>
    simp only [State.pending, ha, AllPc.rem]; omega
  | allClose hc ha =>
    simp only [State.pending, ha, AllPc.rem]; omega
  | funcAdd hc i hf hi =>
    simp only [State.pending, hf, FuncPc.rem]; omega
  | funcDone hc i hf hi =>
    have := pending_wgDone_le g { s with func := .finished }
    have h2 : ({ s with func := FuncPc.finished } : State).pending g + 1 ≤ s.pending g := by
      simp only [State.pending, hf, FuncPc.rem]; omega
    omega
  | funcGo hc i hf =>
    have hi := hI.pc.func_lt i hf
    have ho : s.ones[i]? = some .notStarted :=
      (hI.pc.ones_ns i hi).2 (by simp [hf, FuncPc.spawned])
    have := rems_set OnePc.call ho
    simp only [OnePc.rem] at this
    simp only [State.pending, hf, FuncPc.rem]; omega
  | oneCall hc i c ho hg =>
    have := rems_set (OnePc.running (c.dur.map (fun d => s.now + d))) ho
    simp only [OnePc.rem] at this
    simp only [State.pending]; omega
  | oneReturn hc i c t ho hg ht =>
    have := rems_set OnePc.deferred ho
    simp only [OnePc.rem] at this
    simp only [State.pending]; omega
  | oneDone hc i c ho hg =>
    have := pending_wgDone_le g { s with ones := s.ones.set i .finished }
    have h1 := rems_set OnePc.finished ho
    simp only [OnePc.rem] at h1
    have h2 : ({ s with ones := s.ones.set i OnePc.finished } : State).pending g + 1
        ≤ s.pending g := by
      simp only [State.pending]; omega
    omega
  | tick hc hr t hn => exact absurd rfl ht
  | delay hc d => exact absurd rfl (hp d)

/-- When time has passed to the next alarm, the goroutine that waited for it
can run. -/
theorem tick_enables {g : grace} {e : Env} {s : State} {t : Nat} (hI : Inv g e s)
    (hn : nextAlarm e s = some t) : canRun g e { s with now := t } = true := by
  obtain ⟨hmem, hlt, _⟩ := nextAlarm_spec hn
  rw [mem_alarms] at hmem
  rcases hmem with h | ⟨j, hj⟩
  · cases hmain : s.main with
    | idle =>
      simp only [mainAlarm, hmain, List.mem_singleton] at h
      exact canRun_of_instant (a := .grace) (by simp [instants])
        (by simp [instant, Grace, hmain, h])
    | notify => simp [mainAlarm, hmain] at h
    | recv =>
      cases htr : e.trig with
      | none => simp [mainAlarm, hmain, htr] at h
      | some u =>
        simp only [mainAlarm, hmain, htr, Option.toList, List.mem_singleton] at h
        exact canRun_of_instant (a := .grace) (by simp [instants])
          (by simp [instant, Grace, hmain, htr, h])
    | spawn => simp [mainAlarm, hmain] at h
    | sel =>
      obtain ⟨t0, _, _, hdl⟩ := hI.main.dl_some (by rw [hmain]; simp)
      simp only [mainAlarm, hmain, hdl, Option.map_some', Option.toList,
        List.mem_singleton] at h
      have hle : (t0 : Int) + g.td ≤ (t : Int) := by omega
      exact canRun_of_instant (a := .graceTimeout) (by simp [instants])
        (by simp [instant, GraceTimeout, hmain, hdl, hle])
    | returned r => simp [mainAlarm, hmain] at h
  · have hjl : j < g.ss.length := hI.pc.len ▸ lt_of_getElem?_eq_some hj
    obtain ⟨c, hc2⟩ : ∃ c, g.ss[j]? = some c := ⟨_, List.getElem?_eq_getElem hjl⟩
    exact canRun_of_instant (a := .one j) (by simp [instants, hjl])
      (by simp [instant, shutdownOne, hj, hc2])

/-- Every step that is not a scheduling latency takes one off the fuel. -/
theorem fuel_step {g : grace} {e : Env} {s s1 : State} {a : Action}
    (hI : Inv g e s) (h : Trans g e s a s1) (hp : ∀ d, a ≠ .delay d) :
    s1.fuel g e + 1 ≤ s.fuel g e := by
  by_cases ht : a = .tick
  · subst ht
    cases h with
    | tick hc hr t hn =>
      have h1 := tick_enables hI hn
      simp only [State.fuel, h1, hr, if_true]
      simp [State.pending]
  · have := pending_step hI h hp ht
    simp only [State.fuel]
    split <;> split <;> omega

theorem exec_append (g : grace) (e : Env) (s : State) (as bs : List Action) :
    exec g e s (as ++ bs) = (exec g e s as).bind (fun s1 => exec g e s1 bs) := by
  induction as generalizing s with
  | nil => simp [exec]
  | cons a as ih =>
    simp only [List.cons_append, exec]
    cases step g e s a with
    | none => simp
    | some s2 => simp [ih]

theorem prompt_cons {a : Action} {as : List Action} (h : Prompt (a :: as)) :
    (∀ d, a ≠ .delay d) ∧ Prompt as := by
  constructor
  · intro d
    exact h a (List.mem_cons_self _ _) d
  · intro b hb d
    exact h b (List.mem_cons_of_mem _ hb) d

theorem prompt_snoc {a : Action} {as : List Action} (h : Prompt as) (ha : ∀ d, a ≠ .delay d) :
    Prompt (as ++ [a]) := by
  intro b hb d
  rw [List.mem_append] at hb
  rcases hb with hb | hb
  · exact h b hb d
  · simp only [List.mem_singleton] at hb
    rw [hb]
    exact ha d

/-- Along a schedule without scheduling latency the timing invariant holds and
every step is paid from the fuel. -/
theorem exec_prompt {g : grace} {e : Env} {acts : List Action} {s s1 : State}
    (hI : Inv g e s) (hT : InvTime g e s) (h : exec g e s acts = some s1)
    (hp : Prompt acts) : InvTime g e s1 ∧ acts.length + s1.fuel g e ≤ s.fuel g e := by
  induction acts generalizing s with
  | nil =>
    simp only [exec, Option.some.injEq] at h
    subst h
    exact ⟨hT, by simp⟩
  | cons a as ih =>
    simp only [exec] at h
    obtain ⟨hpa, hpas⟩ := prompt_cons hp
    cases hs : step g e s a with
    | none => simp [hs] at h
    | some s2 =>
      rw [hs] at h
      have htr := step_trans hs
      obtain ⟨h1, h2⟩ := ih (hI.stepInv htr) (hT.stepTime hI htr hpa) h hpas
      have := fuel_step hI htr hpa
      refine ⟨h1, ?_⟩
      simp only [List.length_cons]
      omega

theorem fuel_init_le (g : grace) (e : Env) : (init g).fuel g e ≤ 12 * g.ss.length + 27 := by
  have h : (init g).pending g = 6 * g.ss.length + 13 := by
    simp only [State.pending, init, MainPc.rem, AllPc.rem, FuncPc.rem, List.map_replicate,
      List.sum_replicate, OnePc.rem, smul_eq_mul]
    simp
    omega
  simp only [State.fuel, h]
  split <;> omega

theorem run_prompt {g : grace} {e : Env} {acts : List Action} {s : State}
    (h : run g e acts = some s) (hp : Prompt acts) :
    InvTime g e s ∧ acts.length + s.fuel g e ≤ 12 * g.ss.length + 27 := by
  obtain ⟨h1, h2⟩ := exec_prompt (init_inv g e) (init_invTime g e) h hp
  have := fuel_init_le g e
  exact ⟨h1, by omega⟩

/-- From every state of a schedule without scheduling latency, when the channel
is not nil and a trigger is delivered, some continuation makes `Grace`
return. -/
theorem exists_return {g : grace} {e : Env} (hsig : g.sig ≠ none) {t : Nat}
    (htr : e.trig = some t) (n : Nat) :
    ∀ acts s, Prompt acts → run g e acts = some s → s.fuel g e ≤ n →
      ∃ acts1 s1, Prompt acts1 ∧ run g e acts1 = some s1 ∧ s1.main.isReturned = true := by
  induction n with
  | zero =>
    intro acts s hp hrun hf
    cases hm : s.main.isReturned with
    | true => exact ⟨acts, s, hp, hrun, hm⟩
    | false =>
      obtain ⟨a, ha, hs⟩ := grace_progress (run_inv hrun) hsig htr hm
      obtain ⟨s2, hs2⟩ := Option.isSome_iff_exists.1 hs
      have := fuel_step (run_inv hrun) (step_trans hs2) ha
      omega
  | succ n ih =>
    intro acts s hp hrun hf
    cases hm : s.main.isReturned with
    | true => exact ⟨acts, s, hp, hrun, hm⟩
    | false =>
      obtain ⟨a, ha, hs⟩ := grace_progress (run_inv hrun) hsig htr hm
      obtain ⟨s2, hs2⟩ := Option.isSome_iff_exists.1 hs
      have := fuel_step (run_inv hrun) (step_trans hs2) ha
      have hrun2 : run g e (acts ++ [a]) = some s2 := by
        unfold run at hrun ⊢
        rw [exec_append, hrun]
        simp [exec, hs2]
      exact ih (acts ++ [a]) s2 (prompt_snoc hp ha) hrun2 (by omega)

/-- When the channel is not nil and a trigger is delivered, `Grace` returns `r`
as soon as `r` is all it can return. -/
theorem graceReturns_of {g : grace} {e : Env} {r : Option String} (hsig : g.sig ≠ none)
    {t : Nat} (htr : e.trig = some t)
    (hres : ∀ acts s r1, Prompt acts → run g e acts = some s → s.main = .returned r1 → r1 = r) :
    GraceReturns g e r := by
  refine ⟨?_, ?_, hres, ?_⟩
  · intro acts s hp hrun
    have := (run_prompt hrun hp).2
    omega
  · intro acts s hp hrun hm
    exact grace_progress (run_inv hrun) hsig htr hm
  · obtain ⟨acts1, s1, hp1, hrun1, hm1⟩ :=
      exists_return hsig htr ((init g).fuel g e) [] (init g) (by intro a ha; cases ha) rfl
        (le_refl _)
    cases hmain : s1.main with
    | returned r1 =>
      have := hres acts1 s1 r1 hp1 hrun1 hmain
      subst this
      exact ⟨acts1, s1, hp1, hrun1, hmain⟩
    | _ => simp [hmain, MainPc.isReturned] at hm1

/-- Induction along the schedules without scheduling latency. -/
theorem prompt_induction {g : grace} {e : Env} {P : State → Prop} (h0 : P (init g))
    (hstep : ∀ acts s a s1, Prompt acts → run g e acts = some s → P s → Trans g e s a s1 →
      (∀ d, a ≠ .delay d) → P s1) :
    ∀ acts s, Prompt acts → run g e acts = some s → P s := by
  intro acts
  induction acts using List.reverseRecOn with
  | nil =>
    intro s _ h
    simp only [run, exec, Option.some.injEq] at h
    exact h ▸ h0
  | append_singleton as a ih =>
    intro s hp h
    have hpas : Prompt as := fun b hb d => hp b (List.mem_append_left _ hb) d
    have hpa : ∀ d, a ≠ .delay d := fun d => hp a (by simp) d
    unfold run at h
    rw [exec_append] at h
    cases h0 : exec g e (init g) as with
    | none => simp [h0] at h
    | some s0 =>
      rw [h0] at h
      simp only [Option.some_bind, exec] at h
      cases hs : step g e s0 a with
      | none => simp [hs] at h
      | some s2 =>
        rw [hs] at h
        simp only [Option.some_bind, Option.some.injEq] at h
        subst h
        exact hstep as s0 a s2 hpas h0 (ih s0 hpas h0) (step_trans hs) hpa

/-- How `Grace` comes to have returned: it had returned before, or the step is
one of the two cases of the `select`. -/
theorem Trans.returned_cases {g : grace} {e : Env} {s s1 : State} {a : Action}
    (h : Trans g e s a s1) {r : Option String} (hr : s1.main = .returned r) :
    s.main = .returned r ∨
    (s.main = .sel ∧ r = none ∧ s.doneClosed = true) ∨
    (s.main = .sel ∧ r = timeoutErr ∧ ∃ d, s.deadline = some d ∧ d ≤ (s.now : Int)) := by
  cases h with
  | enter hc hm ht => cases hr
  | notifyNil hc hm hs => exact Or.inl hr
  | notify hc hm c hs => cases hr
  | recv hc hm t htr ht => cases hr
  | spawn hc hm => cases hr
  | selDone hc hm hd =>
    simp only [MainPc.returned.injEq] at hr
    exact Or.inr (Or.inl ⟨hm, hr.symm, hd⟩)
  | selTimeout hc hm d hd ht =>
    simp only [MainPc.returned.injEq] at hr
    exact Or.inr (Or.inr ⟨hm, hr.symm, d, hd, ht⟩)
  | allAdd hc ha => exact Or.inl hr
  | allGo hc ha => exact Or.inl hr
  | allWait hc ha hw => exact Or.inl hr
  | allClose hc ha => exact Or.inl hr
  | funcAdd hc i hf hi => exact Or.inl hr
  | funcDone hc i hf hi => exact Or.inl (by simpa using hr)
  | funcGo hc i hf => exact Or.inl hr
  | oneCall hc i c ho hg => exact Or.inl hr
  | oneReturn hc i c t ho hg ht => exact Or.inl hr
  | oneDone hc i c ho hg => exact Or.inl (by simpa using hr)
  | tick hc hr2 t hn => exact Or.inl hr
  | delay hc d => exact Or.inl hr

/-- A step that is not a passing of time keeps the clock; `Grace` had not
returned before it when it has not after it, and `shutdownAll` had not finished
before it when it has not after it. -/
theorem Trans.instant_facts {g : grace} {e : Env} {s s1 : State} {a : Action}
    (h : Trans g e s a s1) (hI : Inv g e s) (hp : ∀ d, a ≠ .delay d) (ht : a ≠ .tick) :
    s1.now = s.now ∧ (s1.main.isReturned = false → s.main.isReturned = false) ∧
    (s1.all ≠ .finished → s.all ≠ .finished) := by
  cases h with
  | enter hc hm ht => exact ⟨rfl, fun _ => by rw [hm]; rfl, fun h => h⟩
  | notifyNil hc hm hs => exact ⟨rfl, fun h => h, fun h => h⟩
  | notify hc hm c hs => exact ⟨rfl, fun _ => by rw [hm]; rfl, fun h => h⟩
  | recv hc hm t htr ht => exact ⟨rfl, fun _ => by rw [hm]; rfl, fun h => h⟩
  | spawn hc hm =>
    have hall : s.all = .notStarted := hI.pc.all_ns.2 (Or.inr hm)
    exact ⟨rfl, fun _ => by rw [hm]; rfl, fun _ => by rw [hall]; simp⟩
  | selDone hc hm hd => exact ⟨rfl, fun _ => by rw [hm]; rfl, fun h => h⟩
  | selTimeout hc hm d hd ht => exact ⟨rfl, fun _ => by rw [hm]; rfl, fun h => h⟩
  | allAdd hc ha => exact ⟨rfl, fun h => h, fun _ => by rw [ha]; simp⟩
  | allGo hc ha => exact ⟨rfl, fun h => h, fun _ => by rw [ha]; simp⟩
  | allWait hc ha hw => exact ⟨rfl, fun h => h, fun _ => by rw [ha]; simp⟩
  | allClose hc ha => exact ⟨rfl, fun h => h, fun _ => by rw [ha]; simp⟩
  | funcAdd hc i hf hi => exact ⟨rfl, fun h => h, fun h => h⟩
  | funcDone hc i hf hi => exact ⟨by simp, fun h => by simpa using h, fun h => by simpa using h⟩
  | funcGo hc i hf => exact ⟨rfl, fun h => h, fun h => h⟩
  | oneCall hc i c ho hg => exact ⟨rfl, fun h => h, fun h => h⟩
  | oneReturn hc i c t ho hg ht => exact ⟨rfl, fun h => h, fun h => h⟩
  | oneDone hc i c ho hg => exact ⟨by simp, fun h => by simpa using h, fun h => by simpa using h⟩
  | tick hc hr2 t hn => exact absurd rfl ht
  | delay hc d => exact absurd rfl (hp d)

/-- While `shutdownAll` has not finished or `Grace` has not returned, and every
call of `Shutdown` takes at most `M`, the clock of a schedule without
scheduling latency is at most `M` past the receive of the trigger. -/
theorem now_le_of_not_done {g : grace} {e : Env} {M : Nat}
    (hM : ∀ c ∈ g.ss, ∃ D, c.dur = some D ∧ D ≤ M) :
    ∀ acts s, Prompt acts → run g e acts = some s →
      (s.all ≠ .finished ∨ s.main.isReturned = false) → s.now ≤ e.start + M := by
  apply prompt_induction
  · intro _
    show 0 ≤ _
    omega
  · intro acts s a s1 hp hrun hP htr hpa hm1
    have hI := run_inv hrun
    have hT := (run_prompt hrun hp).1
    by_cases hta : a = .tick
    · subst hta
      have hT1 := hT.stepTime hI htr hpa
      have hI1 := hI.stepInv htr
      cases htr with
      | tick hc hr t hn =>
        show t ≤ e.start + M
        obtain ⟨hmem, hlt, hmin⟩ := nextAlarm_spec hn
        obtain ⟨hG, hGT, hA, hF, hO⟩ := canRun_false hr
        have hst : State.starting { s with now := t } → t ≤ e.start + M := by
          intro h
          have := hT1.starting h
          have h2 : t ≤ e.start := this
          omega
        have hst2 : s.starting → t ≤ e.start + M := fun h => hst h
        cases hall : s.all with
        | notStarted => exact hst2 (State.starting_all (by rw [hall]; rfl))
        | add => exact hst2 (State.starting_all (by rw [hall]; rfl))
        | goFunc => exact hst2 (State.starting_all (by rw [hall]; rfl))
        | close => simp [shutdownAll, hall] at hA
        | finished =>
          have hd := hI.wg.done_iff.2 hall
          have hm1b : s.all ≠ .finished ∨ s.main.isReturned = false := hm1
          have hm : s.main.isReturned = false := hm1b.resolve_left (by simp [hall])
          cases hmain : s.main with
          | sel => simp [Grace, hmain, hd] at hG
          | returned r => simp [hmain, MainPc.isReturned] at hm
          | _ =>
            have := hI.pc.all_ns.2 (by simp [hmain, MainPc.early])
            rw [hall] at this
            cases this
        | wait =>
          have hw : s.wg ≠ 0 := by
            intro hw
            simp [shutdownAll, hall, hw] at hA
          have hfn : s.func ≠ .notStarted := by
            intro hf
            have := hI.pc.func_ns.1 hf
            simp [hall] at this
          have hweq := hI.wg.wg_eq hfn
          cases hf : s.func with
          | notStarted => exact absurd hf hfn
          | loop i => exact hst2 (State.starting_func (by rw [hf]; rfl))
          | go i => exact hst2 (State.starting_func (by rw [hf]; rfl))
          | finished =>
            rw [hf] at hweq
            simp only [FuncPc.hold] at hweq
            obtain ⟨j, x, hj, hx⟩ := actives_pos (l := s.ones) (by omega)
            have hjl : j < g.ss.length := hI.pc.len ▸ lt_of_getElem?_eq_some hj
            obtain ⟨c, hc2⟩ : ∃ c, g.ss[j]? = some c := ⟨_, List.getElem?_eq_getElem hjl⟩
            have hOj := hO j hjl
            cases x with
            | notStarted => simp [OnePc.active] at hx
            | finished => simp [OnePc.active] at hx
            | call => exact hst2 (State.starting_call hj)
            | deferred => simp [shutdownOne, hj, hc2] at hOj
            | running u =>
              obtain ⟨c3, hc3, hu⟩ := hT.running j u hj
              rw [hc2] at hc3
              simp only [Option.some.injEq] at hc3
              subst hc3
              obtain ⟨D, hD, hDM⟩ := hM c (List.mem_iff_getElem?.2 ⟨j, hc2⟩)
              rw [hD] at hu
              simp only [Option.map_some'] at hu
              subst hu
              have hnot : ¬ e.start + D ≤ s.now := by
                intro hle
                simp [shutdownOne, hj, hc2, hle] at hOj
              have : t ≤ e.start + D := by
                apply hmin
                · rw [mem_alarms]
                  exact Or.inr ⟨j, hj⟩
                · omega
              omega
    · obtain ⟨h1, h2, h3⟩ := htr.instant_facts hI hpa hta
      rw [h1]
      exact hP (hm1.imp h3 h2)

/-- When every call of `Shutdown` ends before the deadline, counted from the
receive of the trigger, `Grace` can only return nil. -/
theorem result_nil {g : grace} {e : Env} {M : Nat}
    (hM : ∀ c ∈ g.ss, ∃ D, c.dur = some D ∧ D ≤ M)
    (hlt : (e.start : Int) + (M : Int) < (e.enter : Int) + g.td) :
    ∀ acts s, Prompt acts → run g e acts = some s →
      ∀ r, s.main = .returned r → r = none := by
  apply prompt_induction
  · intro r h
    cases h
  · intro acts s a s1 hp hrun hP htr hpa r hr
    rcases htr.returned_cases hr with h | ⟨_, h, _⟩ | ⟨hm, _, d, hd, hle⟩
    · exact hP r h
    · exact h
    · have hT := (run_prompt hrun hp).1
      have hup := now_le_of_not_done hM acts s hp hrun (Or.inr (by rw [hm]; rfl))
      have hdl := hT.dl (by rw [hm]; simp)
      rw [hdl] at hd
      simp only [Option.some.injEq] at hd
      omega

/-- When some call of `Shutdown` never ends, or takes time and ends after the
deadline, counted from the receive of the trigger, `Grace` can only return the
timeout error. -/
theorem result_timeout {g : grace} {e : Env} {j : Nat} {c : Shutdown}
    (hj : g.ss[j]? = some c)
    (hc : ∀ D, c.dur = some D → 0 < D ∧ (e.enter : Int) + g.td < (e.start : Int) + (D : Int)) :
    ∀ acts s, Prompt acts → run g e acts = some s →
      ∀ r, s.main = .returned r → r = timeoutErr := by
  apply prompt_induction
  · intro r h
    cases h
  · intro acts s a s1 hp hrun hP htr hpa r hr
    rcases htr.returned_cases hr with h | ⟨hm, _, hd⟩ | ⟨_, h, _⟩
    · exact hP r h
    · exfalso
      have hI := run_inv hrun
      have hT := (run_prompt hrun hp).1
      have hall := hI.wg.done_iff.1 hd
      have hjl : j < g.ss.length := lt_of_getElem?_eq_some hj
      have hfin := (hI.wg.closed (Or.inr hall)).2.2 j hjl
      obtain ⟨c2, D, h1, h2, h3⟩ := hT.fin j .finished hfin rfl
      rw [hj] at h1
      simp only [Option.some.injEq] at h1
      subst h1
      obtain ⟨h4, h5⟩ := hc D h2
      rcases hT.sel hm with h6 | h6
      · omega
      · omega
    · exact h

/-! ## Errors of the components -/

theorem eraseLog_eq {s1 s2 : State} (h : s1.eraseLog = s2.eraseLog) :
    s2 = { s1 with log := s2.log } := by
  cases s1
  cases s2
  simp only [State.eraseLog, State.mk.injEq] at h ⊢
  obtain ⟨h1, h2, h3, h4, h5, h6, h7, h8, h9, h10, h11, _⟩ := h
  exact ⟨h1.symm, h2.symm, h3.symm, h4.symm, h5.symm, h6.symm, h7.symm, h8.symm, h9.symm,
    h10.symm, h11.symm, trivial⟩

theorem SameButErrors.length {g1 g2 : grace} (h : SameButErrors g1 g2) :
    g1.ss.length = g2.ss.length := by
  have := congrArg List.length h.2.2
  simpa using this

theorem SameButErrors.get {g1 g2 : grace} (h : SameButErrors g1 g2) (i : Nat) :
    (g1.ss[i]?).map (fun c => c.dur) = (g2.ss[i]?).map (fun c => c.dur) := by
  have := congrArg (fun l => l[i]?) h.2.2
  simpa using this

theorem wgDone_eraseLog (s : State) (l : List String) :
    (wgDone { s with log := l }).eraseLog = (wgDone s).eraseLog := by
  unfold wgDone
  simp only
  split <;> rfl

theorem instant_eraseLog {g1 g2 : grace} (hg : SameButErrors g1 g2) (e : Env)
    {s1 s2 : State} (hs : s1.eraseLog = s2.eraseLog) (a : Action) :
    (instant g1 e s1 a).map State.eraseLog = (instant g2 e s2 a).map State.eraseLog := by
  have h2 := eraseLog_eq hs
  rw [h2]
  generalize s2.log = l
  have hlen := hg.length
  have hget := hg.get
  obtain ⟨htd, hsig, _⟩ := hg
  cases a with
  | grace =>
    simp only [instant, Grace, htd, hsig]
    cases s1.main with
    | idle => simp only; split <;> rfl
    | notify => simp only; cases g2.sig <;> rfl
    | recv =>
      simp only
      cases e.trig with
      | none => rfl
      | some t => simp only; split <;> rfl
    | spawn => rfl
    | sel => simp only; split <;> rfl
    | returned r => rfl
  | graceTimeout =>
    simp only [instant, GraceTimeout]
    cases s1.main <;> try rfl
    cases s1.deadline with
    | none => rfl
    | some d => simp only; split <;> rfl
  | all =>
    simp only [instant, shutdownAll]
    cases s1.all <;> try rfl
    simp only
    split <;> rfl
  | func =>
    simp only [instant, shutdownAllFunc, hlen]
    cases s1.func with
    | notStarted => rfl
    | loop i =>
      by_cases hi : i < g2.ss.length
      · simp only [hi, if_true]
        rfl
      · simp only [hi, if_false, Option.map_some', Option.some.injEq]
        exact (wgDone_eraseLog { s1 with func := .finished } l).symm
    | go i => rfl
    | finished => rfl
  | one i =>
    have hi := hget i
    simp only [instant, shutdownOne]
    cases h1 : g1.ss[i]? with
    | none =>
      cases h2 : g2.ss[i]? with
      | none =>
        cases s1.ones[i]? with
        | none => rfl
        | some x => cases x <;> try rfl
                    rename_i u
                    cases u <;> rfl
      | some c2 => rw [h1, h2] at hi; simp at hi
    | some c1 =>
      cases h2 : g2.ss[i]? with
      | none => rw [h1, h2] at hi; simp at hi
      | some c2 =>
        rw [h1, h2] at hi
        simp only [Option.map_some', Option.some.injEq] at hi
        cases s1.ones[i]? with
        | none => rfl
        | some x =>
          cases x with
          | notStarted => rfl
          | call => simp only [hi]; rfl
          | running u =>
            cases u with
            | none => rfl
            | some t => simp only; split <;> rfl
          | deferred =>
            simp only [Option.map_some', Option.some.injEq]
            exact (wgDone_eraseLog { s1 with ones := s1.ones.set i .finished } l).symm
          | finished => rfl
  | tick => rfl
  | delay d => rfl

theorem canRun_eraseLog {g1 g2 : grace} (hg : SameButErrors g1 g2) (e : Env)
    {s1 s2 : State} (hs : s1.eraseLog = s2.eraseLog) :
    canRun g1 e s1 = canRun g2 e s2 := by
  unfold canRun instants
  rw [hg.length]
  congr 1
  funext a
  have := congrArg Option.isSome (instant_eraseLog hg e hs a)
  simpa using this

theorem step_tick (g : grace) (e : Env) (s : State) :
    step g e s .tick = if s.crashed then none
      else if canRun g e s then none
      else (nextAlarm e s).map (fun t => { s with now := t }) := rfl

theorem step_eraseLog {g1 g2 : grace} (hg : SameButErrors g1 g2) (e : Env)
    {s1 s2 : State} (hs : s1.eraseLog = s2.eraseLog) (a : Action) :
    (step g1 e s1 a).map State.eraseLog = (step g2 e s2 a).map State.eraseLog := by
  have hi := instant_eraseLog hg e hs a
  have hr := canRun_eraseLog hg e hs
  have h2 := eraseLog_eq hs
  have hcr : s2.crashed = s1.crashed := by rw [h2]
  have hna : nextAlarm e s2 = nextAlarm e s1 := by rw [h2]; rfl
  cases a with
  | tick =>
    rw [step_tick, step_tick, hr, hcr, hna]
    cases s1.crashed with
    | true => rfl
    | false =>
      cases canRun g2 e s2 with
      | true => rfl
      | false =>
        simp only [Bool.false_eq_true, if_false]
        cases nextAlarm e s1 with
        | none => rfl
        | some t =>
          simp only [Option.map_some', Option.some.injEq]
          rw [h2]
          rfl
  | delay d =>
    simp only [step, hcr]
    cases s1.crashed with
    | true => rfl
    | false =>
      simp only [Bool.false_eq_true, if_false, Option.map_some', Option.some.injEq]
      rw [h2]
      rfl
  | grace =>
    simp only [step, hcr]
    cases s1.crashed with
    | true => rfl
    | false => exact hi
  | graceTimeout =>
    simp only [step, hcr]
    cases s1.crashed with
    | true => rfl
    | false => exact hi
  | all =>
    simp only [step, hcr]
    cases s1.crashed with
    | true => rfl
    | false => exact hi
  | func =>
    simp only [step, hcr]
    cases s1.crashed with
    | true => rfl
    | false => exact hi
  | one i =>
    simp only [step, hcr]
    cases s1.crashed with
    | true => rfl
    | false => exact hi

theorem exec_eraseLog {g1 g2 : grace} (hg : SameButErrors g1 g2) (e : Env)
    (acts : List Action) :
    ∀ s1 s2 : State, s1.eraseLog = s2.eraseLog →
      (exec g1 e s1 acts).map State.eraseLog = (exec g2 e s2 acts).map State.eraseLog := by
  induction acts with
  | nil =>
    intro s1 s2 hs
    simp [exec, hs]
  | cons a as ih =>
    intro s1 s2 hs
    have h := step_eraseLog hg e hs a
    simp only [exec]
    cases h1 : step g1 e s1 a with
    | none =>
      rw [h1] at h
      cases h2 : step g2 e s2 a with
      | none => rfl
      | some t2 => rw [h2] at h; simp at h
    | some t1 =>
      rw [h1] at h
      cases h2 : step g2 e s2 a with
      | none => rw [h2] at h; simp at h
      | some t2 =>
        rw [h2] at h
        simp only [Option.map_some', Option.some.injEq] at h
        simp only [Option.some_bind]
        exact ih t1 t2 h

theorem run_eraseLog {g1 g2 : grace} (hg : SameButErrors g1 g2) (e : Env)
    (acts : List Action) :
    (run g1 e acts).map State.eraseLog = (run g2 e acts).map State.eraseLog := by
  apply exec_eraseLog hg
  simp [init, State.eraseLog, hg.length]

/-! ## Sample runs -/

theorem prompt_of_all {acts : List Action} (h : acts.all (fun a => !a.isDelay) = true) :
    Prompt acts := by
  intro a ha d hd
  rw [List.all_eq_true] at h
  have := h a ha
  subst hd
  simp [Action.isDelay] at this

theorem le_maxDur {ds : List Nat} {d : Nat} (h : d ∈ ds) : d ≤ maxDur ds := by
  induction ds with
  | nil => cases h
  | cons a as ih =>
    simp only [maxDur, List.foldr_cons] at ih ⊢
    rcases List.mem_cons.1 h with h | h
    · subst h
      exact le_max_left _ _
    · exact le_trans (ih h) (le_max_right _ _)

theorem maxDur_mem {ds : List Nat} (h : ds ≠ []) : maxDur ds ∈ ds := by
  induction ds with
  | nil => exact absurd rfl h
  | cons a as ih =>
    simp only [maxDur, List.foldr_cons]
    by_cases has : as = []
    · subst has
      simp
    · have := ih has
      simp only [maxDur] at this
      rcases le_total a (as.foldr max 0) with hle | hle
      · rw [max_eq_right hle]
        exact List.mem_cons_of_mem _ this
      · rw [max_eq_left hle]
        exact List.mem_cons_self _ _

/-- As long as some entry has not had its `Shutdown` called, and the channel is
not nil and a trigger is delivered, the system is not stuck. -/
theorem progress_calls {g : grace} {e : Env} {s : State} (hI : Inv g e s)
    (hsig : g.sig ≠ none) {t : Nat} (htr : e.trig = some t) {j : Nat} {x : OnePc}
    (hj : s.ones[j]? = some x) (hx : x.invoked = false) :
    ∃ a, (∀ d, a ≠ .delay d) ∧ (step g e s a).isSome = true := by
  have hc : s.crashed = false := by
    cases h : s.crashed with
    | false => rfl
    | true => exact absurd (hI.wg.crash h).1 hsig
  have hjl : j < g.ss.length := hI.pc.len ▸ lt_of_getElem?_eq_some hj
  obtain ⟨c, hc2⟩ : ∃ c, g.ss[j]? = some c := ⟨_, List.getElem?_eq_getElem hjl⟩
  cases x with
  | running u => simp [OnePc.invoked] at hx
  | deferred => simp [OnePc.invoked] at hx
  | finished => simp [OnePc.invoked] at hx
  | call =>
    refine ⟨.one j, (by intro d hd; cases hd), ?_⟩
    rw [step_one hc]
    simp [shutdownOne, hj, hc2]
  | notStarted =>
    have hsp := (hI.pc.ones_ns j hjl).1 hj
    cases hf : s.func with
    | finished =>
      rw [hf] at hsp
      simp only [FuncPc.spawned] at hsp
      omega
    | loop i =>
      refine ⟨.func, (by intro d hd; cases hd), ?_⟩
      rw [step_func hc]
      simp only [shutdownAllFunc, hf]
      split <;> rfl
    | go i =>
      refine ⟨.func, (by intro d hd; cases hd), ?_⟩
      rw [step_func hc]
      simp [shutdownAllFunc, hf]
    | notStarted =>
      rcases hI.pc.func_ns.1 hf with ha | ha | ha
      · have hm := hI.pc.all_ns.1 ha
        apply grace_progress hI hsig htr
        rcases hm with hm | hm
        · cases hmain : s.main <;> simp_all [MainPc.early, MainPc.isReturned]
        · rw [hm]
          rfl
      · refine ⟨.all, (by intro d hd; cases hd), ?_⟩
        rw [step_all hc]
        simp [shutdownAll, ha]
      · refine ⟨.all, (by intro d hd; cases hd), ?_⟩
        rw [step_all hc]
        simp [shutdownAll, ha]

theorem gracefulRun :
    run gracefulG { enter := 0, trig := some (ms 100) } gracefulSchedule = some gracefulFinal := by
  decide

theorem lateRun :
    run gracefulG { enter := 0, trig := some (ms 950) } lateSchedule = some lateFinal := by
  decide

theorem mixedRun :
    run mixedG { enter := 0, trig := some (ms 100) } mixedSchedule = some mixedFinal := by
  decide

theorem raceRun :
    (run negativeG { enter := 0, trig := some 0 } raceSchedule).map (fun s => s.main)
      = some (.returned none) := by
  decide

theorem raceTwoRun :
    (run negativeTwoG { enter := 0, trig := some 0 } raceTwoSchedule).map (fun s => s.main)
      = some (.returned none) := by
  decide

/-! ## The claims on `Grace` -/

/-- C1, as stated, fails. First half: with timeout 1 s, one component of 100 ms
(so D < T) and the trigger delivered 950 ms after the call of `Grace`, a
schedule without latency makes `Grace` return the timeout error, so `Grace`
does not return nil. Second half: with timeout -1 ns and one component that
returns at once (so D > T), a schedule makes `Grace` return nil, so `Grace` does
not return the timeout error. -/
theorem C1_refuted :
    (gracefulG.ss = [{ dur := some (ms 100), err := none }] ∧ gracefulG.td = Second * 1 ∧
      ((ms 100 : Nat) : Int) < Second * 1 ∧
      ¬ GraceReturns gracefulG { enter := 0, trig := some (ms 950) } none) ∧
    (negativeG.ss = [{ dur := some 0, err := none }] ∧ negativeG.td = -1 ∧
      negativeG.td < ((0 : Nat) : Int) ∧
      ¬ GraceReturns negativeG { enter := 0, trig := some 0 } timeoutErr) := by
  refine ⟨⟨by decide, by decide, by decide, ?_⟩, ⟨by decide, by decide, by decide, ?_⟩⟩
  · intro h
    have := h.result lateSchedule lateFinal _ (prompt_of_all (by decide)) lateRun rfl
    exact absurd this (by decide)
  · intro h
    obtain ⟨s, hs, hm⟩ := Option.map_eq_some'.1 raceRun
    have := h.result raceSchedule s _ (prompt_of_all (by decide)) hs hm
    exact absurd this (by decide)

/-- C1, amended: one registered component whose `Shutdown` takes `D`, a channel
that is not nil, the trigger delivered at `t`, no scheduling latency. The
trigger is received at `e.start`, the later one of the call of `Grace` and `t`.
If the component ends before the deadline, which runs from the call of `Grace`
(`e.start + D < e.enter + T`), `Grace` returns nil; if it takes time (`0 < D`)
and ends after the deadline (`e.enter + T < e.start + D`, in particular when
`T < D`), `Grace` returns the timeout error. -/
theorem C1_single_component (g : grace) (e : Env) (c : Shutdown) (D t : Nat)
    (hss : g.ss = [c]) (hD : c.dur = some D) (hsig : g.sig ≠ none)
    (htr : e.trig = some t) :
    e.start = max e.enter t ∧
    ((e.start : Int) + (D : Int) < (e.enter : Int) + g.td → GraceReturns g e none) ∧
    (0 < D → (e.enter : Int) + g.td < (e.start : Int) + (D : Int) →
      GraceReturns g e timeoutErr) ∧
    (0 < D → g.td < (D : Int) → GraceReturns g e timeoutErr) := by
  have hM : ∀ c1 ∈ g.ss, ∃ D1, c1.dur = some D1 ∧ D1 ≤ D := by
    intro c1 hc1
    rw [hss, List.mem_singleton] at hc1
    subst hc1
    exact ⟨D, hD, le_refl _⟩
  have hj : g.ss[0]? = some c := by rw [hss]; rfl
  have hto : 0 < D → (e.enter : Int) + g.td < (e.start : Int) + (D : Int) →
      GraceReturns g e timeoutErr := by
    intro hpos hlt
    have hres := result_timeout (e := e) hj (by
      intro D1 hD1
      rw [hD] at hD1
      simp only [Option.some.injEq] at hD1
      subst hD1
      exact ⟨hpos, hlt⟩)
    exact graceReturns_of hsig htr (fun acts s r1 hp hrun hm => hres acts s hp hrun r1 hm)
  refine ⟨?_, ?_, hto, ?_⟩
  · simp [Env.start, htr]
  · intro hlt
    have hres := result_nil hM hlt
    exact graceReturns_of hsig htr (fun acts s r1 hp hrun hm => hres acts s hp hrun r1 hm)
  · intro hpos hlt
    apply hto hpos
    have h1 := e.enter_le_start
    omega

/-- C1, amended, at the configuration of `TestShutdownGracefully` (timeout 1 s,
component of 100 ms, trigger at 100 ms): `Grace` returns nil. -/
theorem C1_single_component_witness :
    GraceReturns gracefulG { enter := 0, trig := some (ms 100) } none :=
  (C1_single_component gracefulG { enter := 0, trig := some (ms 100) }
    { dur := some (ms 100), err := none } (ms 100) (ms 100)
    (by decide) rfl (by decide) rfl).2.1 (by decide)

/-- C2: under every schedule, scheduling latency included: `done` is closed
only when the `WaitGroup` counter is 0, the anonymous goroutine has finished
and the goroutine of every entry has finished; `Grace` has returned nil only
when `done` is closed, hence when the `Shutdown` of every entry has returned;
and whenever `Grace` has returned, the `Shutdown` of every entry has returned
or the deadline has passed. -/
theorem C2_no_early_return (g : grace) (e : Env) (acts : List Action) (s : State)
    (hrun : run g e acts = some s) :
    (s.doneClosed = true →
      s.wg = 0 ∧ s.func = .finished ∧ ∀ j, j < g.ss.length → s.ones[j]? = some .finished) ∧
    (s.main = .returned none →
      s.doneClosed = true ∧ ∀ j, j < g.ss.length → s.ones[j]? = some .finished) ∧
    (∀ r, s.main = .returned r →
      (∀ j, j < g.ss.length → ∃ x, s.ones[j]? = some x ∧ x.returned = true) ∨
      (∃ d, s.deadline = some d ∧ d ≤ (s.now : Int))) := by
  have hI := run_inv hrun
  have hclosed : s.doneClosed = true →
      s.wg = 0 ∧ s.func = .finished ∧ ∀ j, j < g.ss.length → s.ones[j]? = some .finished :=
    fun hd => hI.wg.closed (Or.inr (hI.wg.done_iff.1 hd))
  refine ⟨hclosed, ?_, ?_⟩
  · intro hm
    rcases hI.main.ret none hm with ⟨_, hd⟩ | ⟨h, _⟩
    · exact ⟨hd, (hclosed hd).2.2⟩
    · exact absurd h (by decide)
  · intro r hm
    rcases hI.main.ret r hm with ⟨_, hd⟩ | ⟨_, h⟩
    · left
      intro j hj
      exact ⟨.finished, (hclosed hd).2.2 j hj, rfl⟩
    · exact Or.inr h

/-- C2 at the run of `TestShutdownGracefully`: `Grace` has returned nil and the
goroutine of the one entry has finished. -/
theorem C2_no_early_return_witness :
    gracefulFinal.main = .returned none ∧
    (gracefulFinal.doneClosed = true ∧
      ∀ j, j < gracefulG.ss.length → gracefulFinal.ones[j]? = some .finished) :=
  ⟨rfl, (C2_no_early_return gracefulG { enter := 0, trig := some (ms 100) } gracefulSchedule
    gracefulFinal gracefulRun).2.1 rfl⟩

/-- C3: under every schedule, scheduling latency included, whatever the
components do or return, what `Grace` has returned is nil or an error whose
message is "closed by timeout". -/
theorem C3_only_timeout_error (g : grace) (e : Env) (acts : List Action) (s : State)
    (r : Option String) (hrun : run g e acts = some s) (hr : s.main = .returned r) :
    r = none ∨ r = some "closed by timeout" := by
  rcases (run_inv hrun).main.ret r hr with ⟨h, _⟩ | ⟨h, _⟩
  · exact Or.inl h
  · exact Or.inr h

/-- C3 at the run of `TestMixedShutdownWithTimeout`, in which a component
returns the error "boom": `Grace` has returned "closed by timeout". -/
theorem C3_only_timeout_error_witness :
    mixedFinal.main = .returned (some "closed by timeout") ∧
    mixedFinal.log = ["boom"] ∧
    ((some "closed by timeout" : Option String) = none ∨
      (some "closed by timeout" : Option String) = some "closed by timeout") :=
  ⟨rfl, rfl, C3_only_timeout_error mixedG { enter := 0, trig := some (ms 100) } mixedSchedule
    mixedFinal (some "closed by timeout") mixedRun rfl⟩

/-- C4: two configurations with the same timeout, the same channel and
components of the same durations, which differ at most in the errors the
components return, under the same trigger and the same schedule: the schedule
can be run in the one exactly when it can in the other, the two states then
differ at most in what was logged, and in particular `Grace` has returned the
same in both. -/
theorem C4_errors_not_propagated (g1 g2 : grace) (e : Env) (acts : List Action)
    (htd : g1.td = g2.td) (hsig : g1.sig = g2.sig)
    (hdur : g1.ss.map (fun c => c.dur) = g2.ss.map (fun c => c.dur)) :
    (run g1 e acts).map State.eraseLog = (run g2 e acts).map State.eraseLog ∧
    (run g1 e acts).map (fun s => s.main) = (run g2 e acts).map (fun s => s.main) ∧
    ((run g1 e acts).isSome = (run g2 e acts).isSome) := by
  have h := @run_eraseLog g1 g2 ⟨htd, hsig, hdur⟩ e acts
  refine ⟨h, ?_, ?_⟩
  · have := congrArg (Option.map (fun s : State => s.main)) h
    simpa [Option.map_map, Function.comp_def, State.eraseLog] using this
  · have := congrArg Option.isSome h
    simpa using this

/-- C4 at `TestMixedShutdownWithTimeout` with and without the first component
failing: `Grace` returns the same, the timeout error. -/
theorem C4_errors_not_propagated_witness :
    (run mixedQuietG { enter := 0, trig := some (ms 100) } mixedSchedule).map (fun s => s.main)
      = some (.returned (some "closed by timeout")) := by
  have h := (C4_errors_not_propagated mixedG mixedQuietG { enter := 0, trig := some (ms 100) }
    mixedSchedule (by decide) (by decide) (by decide)).2.1
  rw [← h, mixedRun]
  rfl

theorem Inv.not_crashed_of_started {g : grace} {e : Env} {s : State} (hI : Inv g e s)
    (hf : s.func ≠ .notStarted) : s.crashed = false := by
  cases h : s.crashed with
  | false => rfl
  | true =>
    have hm := (hI.wg.crash h).2
    have := (hI.not_early hf).1
    rw [hm] at this
    simp [MainPc.early] at this

/-- C5, as stated, fails in its second half: with timeout -5 ns and two
components that return at once, the trigger delivered at the call of `Grace`,
the longest duration (0) exceeds the timeout, and a schedule makes `Grace`
return nil, so `Grace` does not return the timeout error. -/
theorem C5_refuted :
    negativeTwoG.ss.map (fun c => c.dur) = [some 0, some 0] ∧ negativeTwoG.td = -5 ∧
    negativeTwoG.td < ((maxDur [0, 0] : Nat) : Int) ∧
    ¬ GraceReturns negativeTwoG { enter := 0, trig := some 0 } timeoutErr := by
  refine ⟨by decide, by decide, by decide, ?_⟩
  intro h
  obtain ⟨s, hs, hm⟩ := Option.map_eq_some'.1 raceTwoRun
  have := h.result raceTwoSchedule s _ (prompt_of_all (by decide)) hs hm
  exact absurd this (by decide)

/-- C5, amended: one or more components of durations `ds`, a channel that is not
nil, the trigger delivered by the time `Grace` is called, no scheduling
latency. `shutdownAll` closes `done` exactly `maxDur ds` after the call of
`Grace`; `Grace` returns nil when `maxDur ds < T`, whatever the sum of the
durations; and it returns the timeout error when `T < maxDur ds` and
`0 < maxDur ds`. -/
theorem C5_max_not_sum (g : grace) (e : Env) (ds : List Nat) (t : Nat)
    (hds : g.ss.map (fun c => c.dur) = ds.map some) (hne : ds ≠ [])
    (hsig : g.sig ≠ none) (htr : e.trig = some t) (hstart : t ≤ e.enter) :
    (∀ acts s, Prompt acts → run g e acts = some s →
      (s.all = .close → s.now = e.enter + maxDur ds) ∧
      (s.doneClosed = true → e.enter + maxDur ds ≤ s.now)) ∧
    (((maxDur ds : Nat) : Int) < g.td → GraceReturns g e none) ∧
    (0 < maxDur ds → g.td < ((maxDur ds : Nat) : Int) → GraceReturns g e timeoutErr) := by
  have hst : e.start = e.enter := by
    simp only [Env.start, htr, Option.getD_some]
    omega
  have hM : ∀ c ∈ g.ss, ∃ D, c.dur = some D ∧ D ≤ maxDur ds := by
    intro c hc
    have h1 : c.dur ∈ g.ss.map (fun c => c.dur) := List.mem_map.2 ⟨c, hc, rfl⟩
    rw [hds, List.mem_map] at h1
    obtain ⟨D, hD, hcD⟩ := h1
    exact ⟨D, hcD.symm, le_maxDur hD⟩
  obtain ⟨j, c, hj, hcm⟩ : ∃ (j : Nat) (c : Shutdown),
      g.ss[j]? = some c ∧ c.dur = some (maxDur ds) := by
    have h1 : some (maxDur ds) ∈ ds.map some := List.mem_map.2 ⟨_, maxDur_mem hne, rfl⟩
    rw [← hds, List.mem_map] at h1
    obtain ⟨c, hc, hcd⟩ := h1
    obtain ⟨j, hj⟩ := List.mem_iff_getElem?.1 hc
    exact ⟨j, c, hj, hcd⟩
  have hjl : j < g.ss.length := lt_of_getElem?_eq_some hj
  have hlow : ∀ acts s, Prompt acts → run g e acts = some s →
      s.all = .close ∨ s.all = .finished → e.enter + maxDur ds ≤ s.now := by
    intro acts s hp hrun hall
    have hfin := ((run_inv hrun).wg.closed hall).2.2 j hjl
    obtain ⟨c2, D, h1, h2, h3⟩ := (run_prompt hrun hp).1.fin j .finished hfin rfl
    rw [hj] at h1
    simp only [Option.some.injEq] at h1
    subst h1
    rw [hcm] at h2
    simp only [Option.some.injEq] at h2
    omega
  refine ⟨?_, ?_, ?_⟩
  · intro acts s hp hrun
    constructor
    · intro hall
      have h1 := hlow acts s hp hrun (Or.inl hall)
      have h2 := now_le_of_not_done hM acts s hp hrun (Or.inl (by rw [hall]; simp))
      omega
    · intro hd
      exact hlow acts s hp hrun (Or.inr ((run_inv hrun).wg.done_iff.1 hd))
  · intro hlt
    have hres := result_nil (e := e) hM (by omega)
    exact graceReturns_of hsig htr (fun acts s r1 hp hrun hm => hres acts s hp hrun r1 hm)
  · intro hpos hlt
    have hres := result_timeout (e := e) hj (by
      intro D hD
      rw [hcm] at hD
      simp only [Option.some.injEq] at hD
      subst hD
      exact ⟨hpos, by omega⟩)
    exact graceReturns_of hsig htr (fun acts s r1 hp hrun hm => hres acts s hp hrun r1 hm)

/-- C5, amended, at a timeout of 1 s and two components of 600 ms each: the
sum of the durations exceeds the timeout and `Grace` returns nil. -/
theorem C5_max_not_sum_witness :
    (1000000000 : Int) < ((ms 600 + ms 600 : Nat) : Int) ∧
    GraceReturns parallelG { enter := 0, trig := some 0 } none :=
  ⟨by decide, (C5_max_not_sum parallelG { enter := 0, trig := some 0 } [ms 600, ms 600] 0
    (by decide) (by decide) (by decide) rfl (by decide)).2.1 (by decide)⟩

/-- C6: under every schedule, scheduling latency included, `Shutdown` is called
at most once for each entry of `g.ss`, only for entries of `g.ss`, only after
the receive of `Grace` on `g.sig`, and always with the context of `Grace`; a
goroutine that stands before its call of `Shutdown` can make it whatever the
other goroutines do, be their `Shutdown` running, failed or never returning.
With a channel that is not nil and a trigger delivered, every schedule can be
continued until `Shutdown` has been called exactly once for every entry, and
without scheduling latency a schedule is of bounded length, so that this is
reached. -/
theorem C6_every_entry_called_once (g : grace) (e : Env) (acts : List Action) (s : State)
    (hrun : run g e acts = some s) :
    (∀ j, (s.calls.map Prod.fst).count j ≤ 1) ∧
    (∀ c ∈ s.calls, c.1 < g.ss.length ∧ c.2 = s.deadline ∧ s.deadline ≠ none ∧
      s.main.early = false) ∧
    (∀ j, s.ones[j]? = some .call → (step g e s (.one j)).isSome = true) ∧
    (g.sig ≠ none → e.trig ≠ none →
      ((∀ j, j < g.ss.length → (s.calls.map Prod.fst).count j = 1) ∨
        ∃ a, (∀ d, a ≠ .delay d) ∧ (step g e s a).isSome = true)) ∧
    (Prompt acts → acts.length ≤ 12 * g.ss.length + 27) := by
  have hI := run_inv hrun
  refine ⟨?_, ?_, ?_, ?_, ?_⟩
  · intro j
    rw [hI.calls.calls_cnt j]
    split <;> omega
  · intro c hc
    have hcnt : 0 < (s.calls.map Prod.fst).count c.1 :=
      List.count_pos_iff.2 (List.mem_map.2 ⟨c, hc, rfl⟩)
    rw [hI.calls.calls_cnt c.1] at hcnt
    split at hcnt
    · rename_i hinv
      obtain ⟨x, hx, hxi⟩ := Option.map_eq_some'.1 hinv
      have hlen : c.1 < g.ss.length := hI.pc.len ▸ lt_of_getElem?_eq_some hx
      have hf : s.func ≠ .notStarted :=
        hI.pc.func_started hx (by intro h; subst h; simp [OnePc.invoked] at hxi)
      have hne := hI.not_early hf
      obtain ⟨t0, _, _, hdl⟩ := hI.main.dl_some (by
        intro h
        rw [h] at hne
        simp [MainPc.early] at hne)
      exact ⟨hlen, hI.calls.calls_ctx c hc, by rw [hdl]; simp, hne.1⟩
    · omega
  · intro j hj
    have hf := hI.pc.func_started hj (by simp)
    have hc := hI.not_crashed_of_started hf
    have hjl : j < g.ss.length := hI.pc.len ▸ lt_of_getElem?_eq_some hj
    obtain ⟨c, hc2⟩ : ∃ c, g.ss[j]? = some c := ⟨_, List.getElem?_eq_getElem hjl⟩
    rw [step_one hc]
    simp [shutdownOne, hj, hc2]
  · intro hsig htr
    obtain ⟨t, ht⟩ := Option.ne_none_iff_exists'.1 htr
    by_cases hall : ∀ j, j < g.ss.length → (s.calls.map Prod.fst).count j = 1
    · exact Or.inl hall
    · right
      push_neg at hall
      obtain ⟨j, hjl, hne⟩ := hall
      rw [hI.calls.calls_cnt j] at hne
      have hjl2 : j < s.ones.length := hI.pc.len ▸ hjl
      obtain ⟨x, hx⟩ : ∃ x, s.ones[j]? = some x := ⟨_, List.getElem?_eq_getElem hjl2⟩
      have hxi : x.invoked = false := by
        cases hxi : x.invoked with
        | false => rfl
        | true =>
          rw [hx] at hne
          simp [hxi] at hne
      exact progress_calls hI hsig ht hx hxi
  · intro hp
    have := (run_prompt hrun hp).2
    omega

/-- C6 at the run of `TestMixedShutdownWithTimeout` continued until every
goroutine has finished: `Shutdown` was called once for each of the two entries,
with the context of `Grace`, although `Grace` had returned on timeout while
both were running and the first returned an error. -/
theorem C6_every_entry_called_once_witness :
    mixedFinal.calls = [(0, mixedFinal.deadline), (1, mixedFinal.deadline)] ∧
    (∀ j, (mixedFinal.calls.map Prod.fst).count j ≤ 1) :=
  ⟨by decide, (C6_every_entry_called_once mixedG { enter := 0, trig := some (ms 100) }
    mixedSchedule mixedFinal mixedRun).1⟩

/-- C7, as stated, fails: the caller closes the channel it gave with
`WithSignaler` and never sends on it; the receive on line 64 proceeds at once,
the component is shut down and `Grace` returns nil, having consumed no value
from the channel. -/
theorem C7_refuted :
    run gracefulG { enter := 0, trig := some 0, closed := true } closedSchedule
      = some closedFinal ∧
    closedFinal.main = .returned none ∧ closedFinal.received = 0 ∧
    closedFinal.calls = [(0, some 1000000000)] := by
  decide

/-- C7, amended: under every schedule, scheduling latency included, and for
every timeout: `Grace` consumes at most one value from `g.sig`; it has
returned, made a call of `Shutdown` or started `shutdownAll` only when its
receive on `g.sig` could proceed, having consumed exactly one value unless
the channel was closed; and when no value is ever delivered and the channel is
never closed (`e.trig = none`), it never returns, never starts `shutdownAll`
and no `Shutdown` is called. -/
theorem C7_waits_for_trigger (g : grace) (e : Env) (acts : List Action) (s : State)
    (hrun : run g e acts = some s) :
    s.received ≤ 1 ∧
    ((s.main.isReturned = true ∨ s.calls ≠ [] ∨ s.all ≠ .notStarted) →
      (∃ t, e.trig = some t ∧ t ≤ s.now) ∧
      s.received = (if e.closed then 0 else 1) ∧ (e.closed = false → s.received = 1)) ∧
    (e.trig = none →
      s.main.isReturned = false ∧ s.calls = [] ∧ s.all = .notStarted ∧ s.received = 0) := by
  have hI := run_inv hrun
  have hrecv := hI.main.recv_eq
  have key : (s.main.isReturned = true ∨ s.calls ≠ [] ∨ s.all ≠ .notStarted) →
      s.main.early = false := by
    intro h
    have hall : s.all ≠ .notStarted → s.main.early = false := by
      intro h1
      cases hm : s.main.early with
      | false => rfl
      | true => exact absurd (hI.pc.all_ns.2 (Or.inl hm)) h1
    rcases h with h | h | h
    · cases hm : s.main <;> simp_all [MainPc.early, MainPc.isReturned]
    · apply hall
      intro h1
      exact h (hI.calls.calls_nil (hI.pc.func_ns.2 (Or.inl h1)))
    · exact hall h
  refine ⟨?_, ?_, ?_⟩
  · rw [hrecv]
    split
    · omega
    · split <;> omega
  · intro h
    have he := key h
    have h1 : s.received = (if e.closed then 0 else 1) := by
      rw [hrecv, he]
      simp
    refine ⟨hI.main.trig he, h1, ?_⟩
    intro hcl
    rw [h1, hcl]
    simp
  · intro htr
    have he : s.main.early = true := by
      cases hm : s.main.early with
      | true => rfl
      | false =>
        obtain ⟨t, ht, _⟩ := hI.main.trig hm
        rw [htr] at ht
        cases ht
    have hall : s.all = .notStarted := hI.pc.all_ns.2 (Or.inl he)
    refine ⟨?_, hI.calls.calls_nil (hI.pc.func_ns.2 (Or.inl hall)), hall, ?_⟩
    · cases hm : s.main <;> simp_all [MainPc.early, MainPc.isReturned]
    · rw [hrecv, he]
      simp

/-- C7, amended, at the run with the trigger at 950 ms: `Grace` has returned,
having consumed exactly one value, delivered at 950 ms. -/
theorem C7_waits_for_trigger_witness :
    (∃ t, ({ enter := 0, trig := some (ms 950) } : Env).trig = some t ∧ t ≤ lateFinal.now) ∧
    lateFinal.received = 1 :=
  have h := (C7_waits_for_trigger gracefulG { enter := 0, trig := some (ms 950) } lateSchedule
    lateFinal lateRun).2.1 (Or.inl rfl)
  ⟨h.1, h.2.2 rfl⟩

/-- C8: once `Grace` is entered, the deadline of its context is the instant of
the entry plus the timeout, under every schedule; without scheduling latency
that instant is the one at which `Grace` is called, so the deadline is
`e.enter + g.td` whenever the trigger arrives and however long before `New`
ran, it is armed while `Grace` still waits for the trigger, and the case
`<-timeout` of the `select` can be taken exactly from `e.enter + g.td` on. -/
theorem C8_deadline_from_entry (g : grace) (e : Env) (acts : List Action) (s : State)
    (hrun : run g e acts = some s) (hm : s.main ≠ .idle) :
    (∃ t0 : Nat, e.enter ≤ t0 ∧ t0 ≤ s.now ∧ s.deadline = some ((t0 : Int) + g.td)) ∧
    (Prompt acts →
      s.deadline = some ((e.enter : Int) + g.td) ∧
      (s.main = .sel →
        ((step g e s .graceTimeout).isSome = true ↔ (e.enter : Int) + g.td ≤ (s.now : Int)))) := by
  have hI := run_inv hrun
  refine ⟨hI.main.dl_some hm, ?_⟩
  intro hp
  have hdl := (run_prompt hrun hp).1.dl hm
  refine ⟨hdl, ?_⟩
  intro hsel
  have hc : s.crashed = false := by
    cases h : s.crashed with
    | false => rfl
    | true =>
      have := (hI.wg.crash h).2
      rw [hsel] at this
      cases this
  rw [step_graceTimeout hc]
  simp only [GraceTimeout, hsel, hdl]
  split <;> simp_all

/-- C8 at the run with timeout 1 s, `Grace` called at 0 and the trigger at
950 ms: the deadline is 1 s, not 1.95 s. -/
theorem C8_deadline_from_entry_witness :
    lateFinal.deadline = some ((0 : Nat) + (1000000000 : Int)) :=
  ((C8_deadline_from_entry gracefulG { enter := 0, trig := some (ms 950) } lateSchedule
    lateFinal lateRun (by decide)).2 (prompt_of_all (by decide))).1

end Gracefully
